import Mathlib

/-! gographite: the parse, aggregate and flush pipeline of `main.go`.

A shallow embedding of `handleMessage`, of the packet branch of `monitor`
and of `submit`, with the properties of the specification stated over it.

Conventions of the embedding
* Go `int` and `int64` are 64-bit two's-complement integers (amd64): a value
  is an `Int` and every arithmetic result is reduced by `wrapInt`.
* A Go map is an association list with distinct keys; `range` visits the
  entries in list order (one of the orders the runtime may choose).
* A finite `float32` is the integer number of units of `2^-149` it holds
  (every finite `float32` is such a multiple); a non-finite result
  (`±Inf`, `NaN`) is `none`.
* A runtime panic is an `Except` error.
-/

namespace Gographite

/-! ## Machine integers -/

/-- Smallest value of a Go `int` on a 64-bit target. -/
def minInt : Int := -9223372036854775808

/-- Largest value of a Go `int` on a 64-bit target. -/
def maxInt : Int := 9223372036854775807

/-- Two's-complement reduction of an exact result to 64 bits. -/
def wrapInt (x : Int) : Int :=
  (x + 9223372036854775808) % 18446744073709551616 - 9223372036854775808

/-- Runtime panics that the embedded code can raise. -/
inductive Fault where
  | divideByZero
  | sliceBounds
  deriving DecidableEq, Repr

/-- Equality of `Except` values is decidable. -/
instance instDecidableEqExcept {ε α : Type} [DecidableEq ε] [DecidableEq α] :
    DecidableEq (Except ε α)
  | Except.ok a, Except.ok b =>
    if h : a = b then isTrue (by rw [h]) else isFalse (fun e => h (by cases e; rfl))
  | Except.error a, Except.error b =>
    if h : a = b then isTrue (by rw [h]) else isFalse (fun e => h (by cases e; rfl))
  | Except.ok _, Except.error _ => isFalse (fun e => by cases e)
  | Except.error _, Except.ok _ => isFalse (fun e => by cases e)

/-- Go integer division `a / b`: truncation toward zero, a panic on a zero
divisor, and wrap-around for `minInt / -1`. -/
def goDiv (a b : Int) : Except Fault Int :=
  if b = 0 then Except.error Fault.divideByZero else Except.ok (wrapInt (Int.tdiv a b))

/-! ## Maps -/

/-- Map read `m[k]` with the comma-ok result: `none` when the key is absent. -/
def mapGet {α : Type} (k : String) : List (String × α) → Option α
  | [] => none
  | (k', v) :: rest => if k' = k then some v else mapGet k rest

/-- Map write `m[k] = v`: replaces the entry of `k`, or adds one. -/
def mapSet {α : Type} (k : String) (v : α) : List (String × α) → List (String × α)
  | [] => [(k, v)]
  | (k', v') :: rest => if k' = k then (k, v) :: rest else (k', v') :: mapSet k v rest

/-! ## float32 -/

/-- A finite `float32`, held as its number of units of `2^-149`. -/
structure F32 where
  units : Int
  deriving DecidableEq, Repr

/-- The number of units of `2^-149` in one: `2^149`. -/
def f32One : Nat := 713623846352979940529142984724747568191373312

/-- First magnitude, in units, that no finite `float32` reaches: `2^128 * 2^149`. -/
def f32Limit : Nat :=
  242833611528216133864932738352939863330300854881517440156476551217363035650651062272

/-- The rational number a finite `float32` denotes. -/
def F32.toRat (x : F32) : ℚ := x.units / f32One

/-- Quotient `n / d` rounded to the nearest integer, ties to even. -/
def roundHalfEvenDiv (n d : Nat) : Nat :=
  let q := n / d
  let r := n % d
  if 2 * r < d then q
  else if d < 2 * r then q + 1
  else if q % 2 = 0 then q else q + 1

/-- Number of binary digits of `n`, for `n < 2 ^ fuel`. -/
def bitLenAux : Nat → Nat → Nat
  | 0, _ => 0
  | fuel + 1, n => if n = 0 then 0 else bitLenAux fuel (n / 2) + 1

/-- Spacing, as a power of two of units, of the `float32` grid around a
magnitude whose integer part in units is `n < 2^277`: 24 significant bits
are kept. -/
def f32Shift (n : Nat) : Nat := bitLenAux 277 n - 24

/-- IEEE 754 round-to-nearest-even of the magnitude `n / d` (in units of
`2^-149`) to `float32`; `none` when the result overflows to infinity. -/
def f32RoundMag (n d : Nat) : Option Nat :=
  if f32Limit ≤ n / d then none
  else
    let sh := f32Shift (n / d)
    let r := roundHalfEvenDiv n (d * 2 ^ sh) * 2 ^ sh
    if r < f32Limit then some r else none

/-- Round the signed quotient `n / d` (in units of `2^-149`, `d > 0`) to `float32`. -/
def f32Round (n : Int) (d : Nat) : Option F32 :=
  (f32RoundMag n.natAbs d).map
    (fun (m : Nat) => if n < 0 then F32.mk (-(m : Int)) else F32.mk (m : Int))

/-- Conversion `float32(v)` of a Go `int`. -/
def f32OfInt (v : Int) : Option F32 := f32Round (v * f32One) 1

/-- Division `1 / s` in `float32`; a zero divisor gives an infinity. -/
def f32Recip (s : F32) : Option F32 :=
  if s.units = 0 then none
  else f32Round (if s.units < 0 then -((f32One * f32One : Nat) : Int) else ((f32One * f32One : Nat) : Int))
    s.units.natAbs

/-- Product in `float32`; a non-finite operand gives a non-finite result. -/
def f32Mul : Option F32 → Option F32 → Option F32
  | some a, some b => f32Round (a.units * b.units) f32One
  | _, _ => none

/-- Conversion `int(x)` of a `float32` on amd64: truncation toward zero, and
the integer indefinite value `minInt` for a non-finite or out-of-range `x`. -/
def f32ToInt : Option F32 → Int
  | none => minInt
  | some x =>
    let t := Int.tdiv x.units f32One
    if minInt ≤ t ∧ t ≤ maxInt then t else minInt

/-! ## Aggregator state and the packet branch of `monitor` -/

/-- One parsed sample (`type Packet struct`). -/
structure Packet where
  Bucket : String
  Value : Int
  Modifier : String
  Sampling : F32
  deriving DecidableEq, Repr

/-- The two package-level maps `counters` and `timers`. -/
structure State where
  counters : List (String × Int)
  timers : List (String × List Int)
  deriving DecidableEq, Repr

/-- The state at program start: both maps empty. -/
def State.init : State := ⟨[], []⟩

/-- The `case s := <-In` branch of `monitor` (lines 50-63). -/
def monitorPacket (st : State) (s : Packet) : State :=
  if s.Modifier = "ms" then
    let timers1 := match mapGet s.Bucket st.timers with
      | some _ => st.timers
      | none => mapSet s.Bucket [] st.timers
    let cur := (mapGet s.Bucket timers1).getD []
    { st with timers := mapSet s.Bucket (cur ++ [s.Value]) timers1 }
  else
    let counters1 := match mapGet s.Bucket st.counters with
      | some _ => st.counters
      | none => mapSet s.Bucket 0 st.counters
    let cur := (mapGet s.Bucket counters1).getD 0
    let delta := f32ToInt (f32Mul (f32OfInt s.Value) (f32Recip s.Sampling))
    { st with counters := mapSet s.Bucket (wrapInt (cur + delta)) counters1 }

/-- The float32 `2^-k` (`k ≤ 149`): `1.0` for `k = 0`, `0.5` for `k = 1`. -/
def F32.pow2Neg (k : Nat) : F32 := ⟨((f32One / 2 ^ k : Nat) : Int)⟩

/-! ## `submit`: the flush -/

/-- The command-line flags that `submit` reads. -/
structure Config where
  graphiteAddress : String
  flushInterval : Int
  percentThreshold : Int
  deriving DecidableEq, Repr

/-- The flag defaults of lines 29-34. -/
def Config.default : Config := ⟨"localhost:2003", 10, 90⟩

/-- What the outside world answers during one call of `submit`: whether
`net.Dial` succeeds, whether `os.OpenFile` succeeds, and the text that
`fmt` prints for `now` under the verb `%d`. -/
structure Env where
  dialOk : Bool
  openOk : Bool
  now : String
  deriving DecidableEq, Repr

/-- One `fmt.Fprintf(buffer, "<path> %d %d\n", value, now)`. -/
structure Line where
  path : String
  value : Int
  deriving DecidableEq, Repr

/-- The bytes of one line. -/
def Line.render (now : String) (l : Line) : String :=
  l.path ++ " " ++ toString l.value ++ " " ++ now ++ "\n"

/-- The bytes of a sequence of lines. -/
def renderLines (now : String) (ls : List Line) : String :=
  String.join (ls.map (Line.render now))

/-- Divisor of the rate at line 96:
`(*flushInterval * int64(time.Second)) / 1e3`, with `time.Second = 1e9`. -/
def rateDivisor (cfg : Config) : Int :=
  wrapInt (Int.tdiv (wrapInt (cfg.flushInterval * 1000000000)) 1000)

/-- The loop over `counters` (lines 92-101): the lines written, the map
after the resets, and the number of buckets counted in `numStats`. -/
def flushCounters (cfg : Config) :
    List (String × Int) → Except Fault (List Line × List (String × Int) × Nat)
  | [] => Except.ok ([], [], 0)
  | (s, c) :: rest =>
    if c = 0 then
      (flushCounters cfg rest).map (fun r => (r.1, (s, c) :: r.2.1, r.2.2))
    else
      (goDiv c (rateDivisor cfg)).bind (fun value =>
        (flushCounters cfg rest).map (fun r =>
          (⟨"stats." ++ s, value⟩ :: ⟨"stats_counts." ++ s, c⟩ :: r.1,
            (s, 0) :: r.2.1, r.2.2 + 1)))

/-- Sum of `values[0..n)` as the loop of lines 117-120 computes it. -/
def sumInts (values : List Int) : Int :=
  values.foldl (fun sum v => wrapInt (sum + v)) 0

/-- The five numbers of one timer bucket. -/
structure TimerStats where
  mean : Int
  upper : Int
  maxAtThreshold : Int
  lower : Int
  count : Int
  deriving DecidableEq, Repr

/-- Line 113: `thresholdIndex = ((100 - *percentThreshold) / 100) * count`. -/
def thresholdIndex (percentThreshold count : Int) : Int :=
  wrapInt (wrapInt (Int.tdiv (wrapInt (100 - percentThreshold)) 100) * count)

/-- Line 114: `numInThreshold := count - thresholdIndex`. -/
def numInThreshold (percentThreshold count : Int) : Int :=
  wrapInt (count - thresholdIndex percentThreshold count)

/-- Lines 105-122 for one non-empty timer list `t0`. A slice bound above
`len(t)` is reported as a bounds panic (exact when the slice has no spare
capacity). -/
def reduceTimer (percentThreshold : Int) (t0 : List Int) : Except Fault TimerStats :=
  let t := t0.insertionSort (· ≤ ·)
  let min := t.headD 0
  let max := t.getLastD 0
  let count : Int := t.length
  if 1 < t.length then
    let n := numInThreshold percentThreshold count
    if n < 0 ∨ count < n then Except.error Fault.sliceBounds
    else
      let values := t.take n.toNat
      let sum := sumInts values
      (goDiv sum n).map (fun mean => ⟨mean, max, max, min, count⟩)
  else Except.ok ⟨min, max, max, min, count⟩

/-- The five `Fprintf` calls of lines 126-131. -/
def timerLines (percentThreshold : Int) (u : String) (r : TimerStats) : List Line :=
  [⟨"stats.timers." ++ u ++ ".mean", r.mean⟩,
   ⟨"stats.timers." ++ u ++ ".upper", r.upper⟩,
   ⟨"stats.timers." ++ u ++ ".upper_" ++ toString percentThreshold, r.maxAtThreshold⟩,
   ⟨"stats.timers." ++ u ++ ".lower", r.lower⟩,
   ⟨"stats.timers." ++ u ++ ".count", r.count⟩]

/-- The loop over `timers` (lines 102-133). -/
def flushTimers (cfg : Config) :
    List (String × List Int) → Except Fault (List Line × List (String × List Int) × Nat)
  | [] => Except.ok ([], [], 0)
  | (u, t) :: rest =>
    if 0 < t.length then
      (reduceTimer cfg.percentThreshold t).bind (fun r =>
        (flushTimers cfg rest).map (fun q =>
          (timerLines cfg.percentThreshold u r ++ q.1, (u, []) :: q.2.1, q.2.2 + 1)))
    else
      (flushTimers cfg rest).map (fun q => (q.1, (u, t) :: q.2.1, q.2.2))

/-- What one call of `submit` leaves behind: the two maps, the final
content of `buffer`, and the argument of each `Write` call (`none` when the
call is not made). -/
structure SubmitResult where
  state : State
  buffer : List Line
  clientData : Option (List Line)
  fileData : Option (List Line)
  deriving DecidableEq, Repr

/-- The function `submit` (lines 68-147). The `client` tested at lines 88 and
140 is the variable declared at line 69; line 72 declares another `client`
inside the `if` block, so the outer one is never assigned. -/
def submit (cfg : Config) (env : Env) (st : State) : Except Fault SubmitResult :=
  let client : Option Unit := none
  let _dialed : Bool := cfg.graphiteAddress != "-" && env.dialOk
  let file : Option Unit := if env.openOk then some () else none
  if client.isSome || file.isSome then
    (flushCounters cfg st.counters).bind (fun rc =>
      (flushTimers cfg st.timers).bind (fun rt =>
        let numStats := rc.2.2 + rt.2.2
        let st1 : State := ⟨rc.2.1, rt.2.1⟩
        let buffer := rc.1 ++ rt.1
        if numStats = 0 then Except.ok ⟨st1, buffer, none, none⟩
        else
          let data := buffer
          let buffer1 := buffer ++ [⟨"statsd.numStats", (numStats : Int)⟩]
          Except.ok ⟨st1, buffer1,
            if client.isSome then some data else none,
            if file.isSome then some data else none⟩))
  else Except.ok ⟨st, [], none, none⟩

/-! ## `handleMessage`: the parser -/

/-- The class `[a-zA-Z0-9_]` of `packetRegexp`. -/
def isBucketChar (c : Char) : Bool := c.isAlphanum || c == '_'

/-- The class `[0-9\.]` of `packetRegexp`. -/
def isRateChar (c : Char) : Bool := c.isDigit || c == '.'

/-- The characters that `sanitizeRegexp`, `[^a-zA-Z0-9\-_\.:\|@]`, leaves in place. -/
def isAllowedChar (c : Char) : Bool :=
  c.isAlphanum || c == '-' || c == '_' || c == '.' || c == ':' || c == '|' || c == '@'

/-- The call `sanitizeRegexp.ReplaceAllString(s, "")` (line 154). -/
def sanitize (s : List Char) : List Char := s.filter isAllowedChar

/-- The capture groups 1, 2, 3 and 5 of one match of `packetRegexp`. -/
structure Submatch where
  bucket : List Char
  digits : List Char
  modifier : List Char
  rate : List Char
  deriving DecidableEq, Repr

/-- The group `(c|ms)` at the head of the text: the alternative taken and
the text after it. -/
def matchModifier : List Char → Option (List Char × List Char)
  | 'c' :: rest => some (['c'], rest)
  | 'm' :: 's' :: rest => some (['m', 's'], rest)
  | _ => none

/-- The optional group `(\|@([0-9\.]+))?` at the head of the text: group 5
(empty when the group does not take part) and the number of characters
consumed. -/
def matchRate : List Char → List Char × Nat
  | '|' :: '@' :: rest =>
    let r := rest.takeWhile isRateChar
    if r = [] then ([], 0) else (r, 2 + r.length)
  | _ => ([], 0)

/-- A match of
`([a-zA-Z0-9_]+):([0-9]+)\|(c|ms)(\|@([0-9\.]+))?`
that starts at the head of the text, with the number of characters it
consumes. Each repetition is followed by a character outside its class (or
ends the pattern), so the only run that can be completed is the longest one
and no other choice is ever tried. -/
def matchHere (s : List Char) : Option (Submatch × Nat) :=
  let b := s.takeWhile isBucketChar
  if b = [] then none
  else match s.dropWhile isBucketChar with
    | ':' :: s1 =>
      let v := s1.takeWhile Char.isDigit
      if v = [] then none
      else match s1.dropWhile Char.isDigit with
        | '|' :: s2 =>
          match matchModifier s2 with
          | some (m, s3) =>
            let r := matchRate s3
            some (⟨b, v, m, r.1⟩, b.length + 1 + v.length + 1 + m.length + r.2)
          | none => none
        | _ => none
    | _ => none

/-- The successive leftmost matches from the current position, the first
`skip` characters belonging to the previous match. -/
def findAllFrom : Nat → List Char → List Submatch
  | _, [] => []
  | skip + 1, _ :: cs => findAllFrom skip cs
  | 0, c :: cs =>
    match matchHere (c :: cs) with
    | some (m, len) => m :: findAllFrom (len - 1) cs
    | none => findAllFrom 0 cs

/-- The call `packetRegexp.FindAllStringSubmatch(s, -1)` (line 155). -/
def findAllStringSubmatch (s : List Char) : List Submatch := findAllFrom 0 s

/-- Value of a string of decimal digits. -/
def digitsValue (ds : List Char) : Nat :=
  ds.foldl (fun n c => 10 * n + (c.toNat - 48)) 0

/-- The call `strconv.Atoi`: an optional sign and at least one decimal digit;
`none` stands for an error, which includes a value outside the `int` range. -/
def atoi (s : List Char) : Option Int :=
  let neg := s.head? = some '-'
  let ds := if s.head? = some '-' ∨ s.head? = some '+' then s.tail else s
  if ds = [] ∨ ds.all Char.isDigit = false then none
  else
    let v : Int := if neg then -(digitsValue ds : Int) else digitsValue ds
    if minInt ≤ v ∧ v ≤ maxInt then some v else none

/-- The call `strconv.ParseFloat(s, 32)` on the strings that group 5 can
hold, which are made of digits and dots: digits with at most one dot and at
least one digit, correctly rounded; `none` stands for an error (bad syntax,
or a value that rounds beyond the largest `float32`). A string with any
other character is an error here. -/
def parseFloat32 (s : List Char) : Option F32 :=
  let ip := s.takeWhile Char.isDigit
  match s.dropWhile Char.isDigit with
  | [] => if ip = [] then none else f32Round ((digitsValue ip * f32One : Nat) : Int) 1
  | '.' :: fp =>
    if fp.all Char.isDigit = true ∧ (ip ≠ [] ∨ fp ≠ []) then
      f32Round ((digitsValue (ip ++ fp) * f32One : Nat) : Int) (10 ^ fp.length)
    else none
  | _ => none

/-- The packet built from one match (lines 156-173). -/
def packetOf (item : Submatch) : Packet :=
  let value : Int := match atoi item.digits with
    | some v => v
    | none => if item.modifier = ['m', 's'] then 0 else 1
  let sampleRate : F32 := match parseFloat32 item.rate with
    | some r => r
    | none => ⟨f32One⟩
  ⟨String.mk item.bucket, value, String.mk item.modifier, sampleRate⟩

/-- The function `handleMessage` (lines 149-176): the packets sent on `In`,
in order. -/
def handleMessage (buf : List Char) : List Packet :=
  (findAllStringSubmatch (sanitize buf)).map packetOf

/-! ## Sequences of packets -/

/-- The packets of a list, taken off the queue in order. -/
def monitorPackets (st : State) (ps : List Packet) : State := ps.foldl monitorPacket st

/-! ## The output file -/

/-- The content of the output file after `file.Write(data)` on the file
that line 80 opens with `os.O_RDWR|os.O_CREATE`: the flags hold neither
`O_APPEND` nor `O_TRUNC`, so the write starts at offset 0 and replaces the
first `len(data)` bytes of the old content. A byte is a character here: the
lines are ASCII. -/
def writeAtStart (old data : List Char) : List Char := data ++ old.drop data.length

/-- The output file after one call of `submit` that returned `r`. -/
def fileAfterSubmit (now : String) (old : List Char) (r : SubmitResult) : List Char :=
  match r.fileData with
  | some d => writeAtStart old (renderLines now d).toList
  | none => old

/-! ## What the loops of `submit` write -/

/-- The two lines of lines 97-98 for one entry of `counters`, none for a
counter of 0 (line 93). -/
def counterLines (cfg : Config) (e : String × Int) : List Line :=
  if e.2 = 0 then []
  else [⟨"stats." ++ e.1, wrapInt (Int.tdiv e.2 (rateDivisor cfg))⟩, ⟨"stats_counts." ++ e.1, e.2⟩]

/-- The numbers of a timer list when its reduction returns. -/
def timerStatsOf (percentThreshold : Int) (t : List Int) : TimerStats :=
  match reduceTimer percentThreshold t with
  | Except.ok r => r
  | Except.error _ => ⟨0, 0, 0, 0, 0⟩

/-- The five lines of lines 126-131 for one entry of `timers`, none for an
empty list (line 103). -/
def timerEntryLines (cfg : Config) (e : String × List Int) : List Line :=
  if e.2 = [] then []
  else timerLines cfg.percentThreshold e.1 (timerStatsOf cfg.percentThreshold e.2)

/-! ## The update of one map entry -/

/-- The update of lines 51-56 and 58-62 on one map: the entry of `k` is
created with `d` when absent, then replaced by `f` of its value. -/
def mapUpdate {α : Type} (d : α) (f : α → α) (k : String) (m : List (String × α)) :
    List (String × α) :=
  mapSet k (f ((mapGet k m).getD d))
    (match mapGet k m with
      | some _ => m
      | none => mapSet k d m)

/-- The amount that line 62 adds for a counter packet. -/
def counterDelta (s : Packet) : Int :=
  f32ToInt (f32Mul (f32OfInt s.Value) (f32Recip s.Sampling))

/-- The sum of all the counters. -/
def countersTotal (st : State) : Int := (st.counters.map Prod.snd).sum

/-! ## The state after a flush -/

/-- The maps as `submit` leaves them when it runs: the same keys, every
counter 0 (line 99) and every timer list empty (line 124). -/
def resetState (st : State) : State :=
  ⟨st.counters.map (fun e => (e.1, 0)), st.timers.map (fun e => (e.1, []))⟩

/-- The entries of `full`, in order, each with the value that `a` holds for
its key, or `d` when `a` has no such key. -/
def padMap {α : Type} (d : α) (a full : List (String × α)) : List (String × α) :=
  full.map (fun e => (e.1, (mapGet e.1 a).getD d))

/-! ## Datagrams of several samples -/

/-- The text of one sample, `<bucket>:<value>|<c|ms>[|@<samplingRate>]`,
from its four parts; an empty rate stands for a sample without the suffix. -/
def sampleText (s : Submatch) : List Char :=
  s.bucket ++ ':' :: (s.digits ++ '|' :: (s.modifier ++
    (if s.rate = [] then [] else '|' :: '@' :: s.rate)))

/-- A datagram: each sample followed by its separator, which may be empty. -/
def datagramText : List (Submatch × List Char) → List Char
  | [] => []
  | (s, sep) :: rest => sampleText s ++ sep ++ datagramText rest

/-- The four parts of a sample are in the character classes of the grammar. -/
def SampleWellFormed (s : Submatch) : Prop :=
  s.bucket ≠ [] ∧ (∀ c ∈ s.bucket, isBucketChar c = true) ∧
  s.digits ≠ [] ∧ (∀ c ∈ s.digits, c.isDigit = true) ∧
  (s.modifier = ['c'] ∨ s.modifier = ['m', 's']) ∧ (∀ c ∈ s.rate, isRateChar c = true)

/-- A sample with a sampling rate is not followed by a bucket that starts
with a digit. -/
def RateThenNoDigit (s next : Submatch) : Prop :=
  s.rate = [] ∨ (next.bucket.headD '_').isDigit = false

/-- Well-formedness of a sample is decidable. -/
instance instDecidableSampleWellFormed (s : Submatch) : Decidable (SampleWellFormed s) := by
  unfold SampleWellFormed; infer_instance

/-- The relation `RateThenNoDigit` is decidable. -/
instance instDecidableRateThenNoDigit (s next : Submatch) :
    Decidable (RateThenNoDigit s next) := by
  unfold RateThenNoDigit; infer_instance

/-! ## Arithmetic and sorting lemmas -/


theorem wrapInt_of_range {x : Int} (h1 : minInt ≤ x) (h2 : x ≤ maxInt) : wrapInt x = x := by
  unfold minInt at h1; unfold maxInt at h2; unfold wrapInt; omega

theorem wrapInt_range (x : Int) : minInt ≤ wrapInt x ∧ wrapInt x ≤ maxInt := by
  unfold minInt maxInt wrapInt; omega

theorem wrapInt_add_wrapInt (a b : Int) : wrapInt (wrapInt a + b) = wrapInt (a + b) := by
  unfold wrapInt; omega

theorem foldl_wrap_eq (l : List Int) :
    ∀ acc : Int, minInt ≤ acc → acc ≤ maxInt →
      l.foldl (fun sum v => wrapInt (sum + v)) acc = wrapInt (acc + l.sum) := by
  induction l with
  | nil => intro acc h1 h2; simp [wrapInt_of_range h1 h2]
  | cons v rest ih =>
    intro acc _ _
    simp only [List.foldl_cons, List.sum_cons]
    rw [ih _ (wrapInt_range _).1 (wrapInt_range _).2, wrapInt_add_wrapInt, Int.add_assoc]

theorem sumInts_eq (l : List Int) : sumInts l = wrapInt l.sum := by
  unfold sumInts
  rw [foldl_wrap_eq l 0 (by decide) (by decide), Int.zero_add]

theorem tdiv_range {a b : Int} (ha1 : minInt ≤ a) (ha2 : a ≤ maxInt) (hb : 0 < b) :
    minInt ≤ Int.tdiv a b ∧ Int.tdiv a b ≤ maxInt := by
  unfold minInt at *; unfold maxInt at *
  rcases Int.le_total 0 a with h | h
  · rw [Int.tdiv_eq_ediv h (Int.le_of_lt hb)]
    have h1 : a / b ≤ a := Int.ediv_le_self b h
    have h2 : 0 ≤ a / b := Int.ediv_nonneg h (Int.le_of_lt hb)
    omega
  · have e : Int.tdiv a b = -((-a) / b) := by
      have := Int.neg_tdiv (-a) b
      rw [Int.neg_neg] at this
      rw [this, Int.tdiv_eq_ediv (by omega) (Int.le_of_lt hb)]
    have h1 : (-a) / b ≤ -a := Int.ediv_le_self b (by omega)
    have h2 : 0 ≤ (-a) / b := Int.ediv_nonneg (by omega) (Int.le_of_lt hb)
    omega

theorem thresholdIndex_eq_zero (p count : Int) (h1 : 0 < p) (h2 : p < 200) :
    thresholdIndex p count = 0 := by
  unfold thresholdIndex
  have e1 : wrapInt (100 - p) = 100 - p :=
    wrapInt_of_range (by unfold minInt; omega) (by unfold maxInt; omega)
  have e2 : Int.tdiv (100 - p) 100 = 0 := by
    rcases Int.le_total p 100 with h | h
    · exact Int.tdiv_eq_zero_of_lt (show (0 : Int) ≤ 100 - p by omega) (show 100 - p < 100 by omega)
    · have e : 100 - p = -(p - 100) := by omega
      rw [e, Int.neg_tdiv,
        Int.tdiv_eq_zero_of_lt (show (0 : Int) ≤ p - 100 by omega) (show p - 100 < 100 by omega)]
      rfl
  rw [e1, e2]
  have e3 : wrapInt 0 = 0 := by decide
  rw [e3, Int.zero_mul, e3]

theorem numInThreshold_eq_count (p count : Int) (h1 : 0 < p) (h2 : p < 200)
    (h3 : 0 ≤ count) (h4 : count ≤ maxInt) : numInThreshold p count = count := by
  unfold numInThreshold
  rw [thresholdIndex_eq_zero p count h1 h2, Int.sub_zero]
  exact wrapInt_of_range (by unfold minInt; omega) h4

theorem sorted_headD_le {l : List Int} (h : l.Sorted (· ≤ ·)) : ∀ x ∈ l, l.headD 0 ≤ x := by
  cases l with
  | nil => intro x hx; cases hx
  | cons a rest =>
    intro x hx
    rcases List.mem_cons.1 hx with e | e
    · rw [e]; exact Int.le_refl _
    · exact List.rel_of_sorted_cons h x e

theorem sorted_le_getLastD {l : List Int} (h : l.Sorted (· ≤ ·)) : ∀ x ∈ l, x ≤ l.getLastD 0 := by
  induction l with
  | nil => intro x hx; cases hx
  | cons a rest ih =>
    intro x hx
    cases rest with
    | nil =>
      rcases List.mem_cons.1 hx with e | e
      · rw [e]; exact Int.le_refl _
      · cases e
    | cons b rest2 =>
      have hs : (b :: rest2).Sorted (· ≤ ·) := List.Sorted.of_cons h
      have hlast : (a :: b :: rest2).getLastD 0 = (b :: rest2).getLastD 0 := by
        simp [List.getLastD]
      rw [hlast]
      rcases List.mem_cons.1 hx with e | e
      · rw [e]
        exact Int.le_trans (List.rel_of_sorted_cons h b (List.mem_cons_self _ _))
          (ih hs b (List.mem_cons_self _ _))
      · exact ih hs x e

theorem headD_mem {l : List Int} (h : l ≠ []) : l.headD 0 ∈ l := by
  cases l with
  | nil => exact absurd rfl h
  | cons a rest => exact List.mem_cons_self _ _

theorem getLastD_mem {l : List Int} (h : l ≠ []) : l.getLastD 0 ∈ l := by
  cases l with
  | nil => exact absurd rfl h
  | cons a rest =>
    have : (a :: rest).getLastD 0 = (a :: rest).getLast (List.cons_ne_nil _ _) := by
      simp [List.getLastD]
    rw [this]; exact List.getLast_mem _

theorem reduceTimer_single (p x : Int) : reduceTimer p [x] = Except.ok ⟨x, x, x, x, 1⟩ := by
  simp [reduceTimer]

theorem reduceTimer_many (p : Int) (t : List Int) (hlen : 1 < t.length)
    (hmax : (t.length : Int) ≤ maxInt) (h1 : 0 < p) (h2 : p < 200) :
    reduceTimer p t = Except.ok
      ⟨Int.tdiv (wrapInt t.sum) t.length, (t.insertionSort (· ≤ ·)).getLastD 0,
        (t.insertionSort (· ≤ ·)).getLastD 0, (t.insertionSort (· ≤ ·)).headD 0, t.length⟩ := by
  have hl : (t.insertionSort (· ≤ ·)).length = t.length := List.length_insertionSort _ t
  have hn := numInThreshold_eq_count p t.length h1 h2 (by omega) hmax
  have hsum : sumInts (t.insertionSort (· ≤ ·)) = wrapInt t.sum := by
    rw [sumInts_eq, (List.perm_insertionSort (· ≤ ·) t).sum_eq]
  have hr := tdiv_range (wrapInt_range t.sum).1 (wrapInt_range t.sum).2
    (show (0 : Int) < t.length by omega)
  have hne : ¬ ((t.length : Int) = 0) := by omega
  unfold reduceTimer
  simp only [hl, hlen, if_true, hn]
  rw [if_neg (by omega)]
  rw [Int.toNat_ofNat, ← hl, List.take_length, hsum, hl]
  simp only [goDiv, hne, if_false, Except.map]
  rw [wrapInt_of_range hr.1 hr.2]

/-! ## The loops of `submit` -/

theorem rateDivisor_eq (cfg : Config) (h1 : 1 ≤ cfg.flushInterval)
    (h2 : cfg.flushInterval ≤ 9223372036) : rateDivisor cfg = cfg.flushInterval * 1000000 := by
  unfold rateDivisor
  have e1 : wrapInt (cfg.flushInterval * 1000000000) = cfg.flushInterval * 1000000000 :=
    wrapInt_of_range (by unfold minInt; omega) (by unfold maxInt; omega)
  rw [e1, Int.tdiv_eq_ediv (by omega) (by omega)]
  have e2 : cfg.flushInterval * 1000000000 / 1000 = cfg.flushInterval * 1000000 := by omega
  rw [e2]
  exact wrapInt_of_range (by unfold minInt; omega) (by unfold maxInt; omega)

theorem flushCounters_ok (cfg : Config) (h : rateDivisor cfg ≠ 0) (cs : List (String × Int)) :
    ∃ ls n, flushCounters cfg cs = Except.ok (ls, cs.map (fun e => (e.1, 0)), n) := by
  induction cs with
  | nil => exact ⟨[], 0, rfl⟩
  | cons e rest ih =>
    obtain ⟨s, c⟩ := e
    obtain ⟨ls, n, hr⟩ := ih
    by_cases hc : c = 0
    · subst hc
      exact ⟨ls, n, by simp [flushCounters, hr, Except.map]⟩
    · exact ⟨_, _, by simp [flushCounters, hc, hr, goDiv, h, Except.map, Except.bind]; exact ⟨rfl, rfl⟩⟩

theorem reduceTimer_spec (p : Int) (t : List Int) (hne : t ≠ [])
    (hmax : (t.length : Int) ≤ maxInt) (h1 : 0 < p) (h2 : p < 200) :
    ∃ r, reduceTimer p t = Except.ok r ∧ r.lower ∈ t ∧ (∀ x ∈ t, r.lower ≤ x) ∧
      r.upper ∈ t ∧ (∀ x ∈ t, x ≤ r.upper) ∧ r.maxAtThreshold = r.upper ∧
      r.count = t.length ∧ (1 < t.length → r.mean = Int.tdiv (wrapInt t.sum) t.length) ∧
      (t.length = 1 → r.mean = r.lower) := by
  have hperm := List.perm_insertionSort (· ≤ ·) t
  have hsorted : (t.insertionSort (· ≤ ·)).Sorted (· ≤ ·) := List.sorted_insertionSort (· ≤ ·) t
  have hne2 : t.insertionSort (· ≤ ·) ≠ [] := by
    intro h; rw [h] at hperm; exact hne (List.Perm.nil_eq hperm).symm
  have hlo := hperm.mem_iff.1 (headD_mem hne2)
  have hhi := hperm.mem_iff.1 (getLastD_mem hne2)
  have hlo2 : ∀ x ∈ t, (t.insertionSort (· ≤ ·)).headD 0 ≤ x :=
    fun x hx => sorted_headD_le hsorted x (hperm.mem_iff.2 hx)
  have hhi2 : ∀ x ∈ t, x ≤ (t.insertionSort (· ≤ ·)).getLastD 0 :=
    fun x hx => sorted_le_getLastD hsorted x (hperm.mem_iff.2 hx)
  by_cases hlen : 1 < t.length
  · exact ⟨_, reduceTimer_many p t hlen hmax h1 h2, hlo, hlo2, hhi, hhi2, rfl, rfl,
      fun _ => rfl, fun h => by omega⟩
  · have hl : (t.insertionSort (· ≤ ·)).length = t.length := List.length_insertionSort _ t
    refine ⟨⟨(t.insertionSort (· ≤ ·)).headD 0, (t.insertionSort (· ≤ ·)).getLastD 0,
      (t.insertionSort (· ≤ ·)).getLastD 0, (t.insertionSort (· ≤ ·)).headD 0, t.length⟩,
      ?_, hlo, hlo2, hhi, hhi2, rfl, rfl, fun h => absurd h hlen, fun _ => rfl⟩
    unfold reduceTimer
    simp only [hl, hlen, if_false]

theorem flushTimers_ok (cfg : Config) (h1 : 0 < cfg.percentThreshold)
    (h2 : cfg.percentThreshold < 200) (ts : List (String × List Int))
    (hv : ∀ e ∈ ts, (e.2.length : Int) ≤ maxInt) :
    ∃ ls n, flushTimers cfg ts = Except.ok (ls, ts.map (fun e => (e.1, [])), n) ∧
      (n = 0 → ∀ e ∈ ts, e.2 = []) ∧
      ∀ e ∈ ts, e.2 ≠ [] → ∃ r, reduceTimer cfg.percentThreshold e.2 = Except.ok r ∧
        ∀ l ∈ timerLines cfg.percentThreshold e.1 r, l ∈ ls := by
  induction ts with
  | nil =>
    exact ⟨[], 0, rfl, fun _ e he => absurd he (List.not_mem_nil e),
      fun e he => absurd he (List.not_mem_nil e)⟩
  | cons e rest ih =>
    obtain ⟨u, t⟩ := e
    obtain ⟨ls, n, hr, hz, hin⟩ := ih (fun e he => hv e (List.mem_cons_of_mem _ he))
    by_cases ht : t = []
    · subst ht
      refine ⟨ls, n, by simp [flushTimers, hr, Except.map], ?_, ?_⟩
      · intro hn e he
        rcases List.mem_cons.1 he with h | h
        · rw [h]
        · exact hz hn e h
      · intro e he hne
        rcases List.mem_cons.1 he with h | h
        · rw [h] at hne; exact absurd rfl hne
        · exact hin e h hne
    · obtain ⟨r, hred, -⟩ := reduceTimer_spec cfg.percentThreshold t ht
        (hv (u, t) (List.mem_cons_self _ _)) h1 h2
      have hpos : 0 < t.length := List.length_pos.2 ht
      refine ⟨timerLines cfg.percentThreshold u r ++ ls, n + 1, ?_, ?_, ?_⟩
      · simp [flushTimers, hpos, hred, hr, Except.map, Except.bind]
      · intro hn; omega
      · intro e he hne
        rcases List.mem_cons.1 he with h | h
        · rw [h]
          exact ⟨r, hred, fun l hl => List.mem_append_left _ hl⟩
        · obtain ⟨r2, hr2, hl2⟩ := hin e h hne
          exact ⟨r2, hr2, fun l hl => List.mem_append_right _ (hl2 l hl)⟩

theorem rateDivisor_ne_zero (cfg : Config) (h1 : 1 ≤ cfg.flushInterval)
    (h2 : cfg.flushInterval ≤ 9223372036) : rateDivisor cfg ≠ 0 := by
  rw [rateDivisor_eq cfg h1 h2]; omega

theorem submit_run (cfg : Config) (env : Env) (st : State) (hopen : env.openOk = true)
    (hd : rateDivisor cfg ≠ 0) (h1 : 0 < cfg.percentThreshold) (h2 : cfg.percentThreshold < 200)
    (hv : ∀ e ∈ st.timers, (e.2.length : Int) ≤ maxInt) :
    ∃ lc nc lt nt,
      flushCounters cfg st.counters = Except.ok (lc, st.counters.map (fun e => (e.1, 0)), nc) ∧
      flushTimers cfg st.timers = Except.ok (lt, st.timers.map (fun e => (e.1, [])), nt) ∧
      (nt = 0 → ∀ e ∈ st.timers, e.2 = []) ∧
      (∀ e ∈ st.timers, e.2 ≠ [] → ∃ r, reduceTimer cfg.percentThreshold e.2 = Except.ok r ∧
        ∀ l ∈ timerLines cfg.percentThreshold e.1 r, l ∈ lt) ∧
      submit cfg env st = Except.ok
        ⟨⟨st.counters.map (fun e => (e.1, 0)), st.timers.map (fun e => (e.1, []))⟩,
          if nc + nt = 0 then lc ++ lt
          else lc ++ lt ++ [⟨"statsd.numStats", ((nc + nt : Nat) : Int)⟩],
          none, if nc + nt = 0 then none else some (lc ++ lt)⟩ := by
  obtain ⟨lc, nc, hc⟩ := flushCounters_ok cfg hd st.counters
  obtain ⟨lt, nt, ht, hz, hin⟩ := flushTimers_ok cfg h1 h2 st.timers hv
  refine ⟨lc, nc, lt, nt, hc, ht, hz, hin, ?_⟩
  unfold submit
  simp only [hopen, hc, ht, Except.bind, if_true, Option.isSome, Bool.or_true, Bool.false_or]
  by_cases hn : nc + nt = 0
  · simp [hn]
  · simp [hn]

theorem submit_timer_lines (cfg : Config) (env : Env) (st : State) (hopen : env.openOk = true)
    (h1 : 1 ≤ cfg.flushInterval) (h2 : cfg.flushInterval ≤ 9223372036)
    (h3 : 0 < cfg.percentThreshold) (h4 : cfg.percentThreshold < 200)
    (hv : ∀ e ∈ st.timers, (e.2.length : Int) ≤ maxInt)
    (u : String) (t : List Int) (hmem : (u, t) ∈ st.timers) (hne : t ≠ []) :
    ∃ res data r, submit cfg env st = Except.ok res ∧ res.fileData = some data ∧
      reduceTimer cfg.percentThreshold t = Except.ok r ∧
      ∀ l ∈ timerLines cfg.percentThreshold u r, l ∈ data := by
  obtain ⟨lc, nc, lt, nt, -, -, hz, hin, hs⟩ :=
    submit_run cfg env st hopen (rateDivisor_ne_zero cfg h1 h2) h3 h4 hv
  obtain ⟨r, hr, hl⟩ := hin (u, t) hmem hne
  have hnt : nt ≠ 0 := fun h => hne (hz h (u, t) hmem)
  have hn : ¬ (nc + nt = 0) := by omega
  refine ⟨_, lc ++ lt, r, hs, by simp [hn], hr, fun l h => List.mem_append_right _ (hl l h)⟩

/-! ## Lemmas on the parser -/

theorem takeWhile_append_stop {p : Char → Bool} (b : List Char) (c : Char) (rest : List Char)
    (hb : ∀ x ∈ b, p x = true) (hc : p c = false) :
    (b ++ c :: rest).takeWhile p = b ∧ (b ++ c :: rest).dropWhile p = c :: rest := by
  induction b with
  | nil => simp [List.takeWhile, List.dropWhile, hc]
  | cons a b ih =>
    have ha := hb a (List.mem_cons_self _ _)
    have ih2 := ih (fun x hx => hb x (List.mem_cons_of_mem _ hx))
    simp [List.takeWhile, List.dropWhile, ha, ih2.1, ih2.2]

theorem takeWhile_all {p : Char → Bool} (b : List Char) (hb : ∀ x ∈ b, p x = true) :
    b.takeWhile p = b ∧ b.dropWhile p = [] := by
  induction b with
  | nil => simp
  | cons a b ih =>
    have ha := hb a (List.mem_cons_self _ _)
    have ih2 := ih (fun x hx => hb x (List.mem_cons_of_mem _ hx))
    simp [List.takeWhile, List.dropWhile, ha, ih2.1, ih2.2]

theorem findAllFrom_skip (s : List Char) : ∀ k, s.length ≤ k → findAllFrom k s = [] := by
  induction s with
  | nil => intro k _; cases k <;> rfl
  | cons c cs ih =>
    intro k hk
    cases k with
    | zero => simp at hk
    | succ k => simp only [findAllFrom]; exact ih k (by simpa using hk)

theorem isAllowed_of_isBucket {c : Char} (h : isBucketChar c = true) : isAllowedChar c = true := by
  unfold isBucketChar at h; unfold isAllowedChar
  simp only [Bool.or_eq_true] at h ⊢
  rcases h with h | h
  · exact Or.inl (Or.inl (Or.inl (Or.inl (Or.inl (Or.inl h)))))
  · exact Or.inl (Or.inl (Or.inl (Or.inl (Or.inr h))))

theorem isAlphanum_of_isDigit {c : Char} (h : c.isDigit = true) : c.isAlphanum = true := by
  unfold Char.isAlphanum; simp [h]

theorem isAllowed_of_isDigit {c : Char} (h : c.isDigit = true) : isAllowedChar c = true := by
  unfold isAllowedChar; simp [isAlphanum_of_isDigit h]

theorem isAllowed_of_isRate {c : Char} (h : isRateChar c = true) : isAllowedChar c = true := by
  unfold isRateChar at h; unfold isAllowedChar
  simp only [Bool.or_eq_true] at h ⊢
  rcases h with h | h
  · exact Or.inl (Or.inl (Or.inl (Or.inl (Or.inl (Or.inl (isAlphanum_of_isDigit h))))))
  · exact Or.inl (Or.inl (Or.inl (Or.inr h)))

theorem sanitize_of_allowed (s : List Char) (h : ∀ c ∈ s, isAllowedChar c = true) :
    sanitize s = s := by
  unfold sanitize; exact List.filter_eq_self.2 h

theorem matchHere_sample (b v m tail : List Char) (hb : b ≠ [])
    (hb2 : ∀ c ∈ b, isBucketChar c = true) (hv : v ≠ []) (hv2 : ∀ c ∈ v, c.isDigit = true)
    (hm : m = ['c'] ∨ m = ['m', 's']) :
    matchHere (b ++ ':' :: (v ++ '|' :: (m ++ tail))) =
      some (⟨b, v, m, (matchRate tail).1⟩,
        b.length + 1 + v.length + 1 + m.length + (matchRate tail).2) := by
  have e1 := takeWhile_append_stop b ':' (v ++ '|' :: (m ++ tail)) hb2 (by decide)
  have e2 := takeWhile_append_stop v '|' (m ++ tail) hv2 (by decide)
  unfold matchHere
  simp only [e1.1, e1.2, hb, if_false, e2.1, e2.2, hv]
  rcases hm with h | h <;> subst h <;> simp [matchModifier]

theorem atoi_digits (v : List Char) (hv : v ≠ []) (hv2 : ∀ c ∈ v, c.isDigit = true) :
    atoi v = if (digitsValue v : Int) ≤ maxInt then some (digitsValue v : Int) else none := by
  cases v with
  | nil => exact absurd rfl hv
  | cons c rest =>
    have hc := hv2 c (List.mem_cons_self _ _)
    have h1 : c ≠ '-' := by intro h; rw [h] at hc; exact absurd hc (by decide)
    have h2 : c ≠ '+' := by intro h; rw [h] at hc; exact absurd hc (by decide)
    have hall : (c :: rest).all Char.isDigit = true := List.all_eq_true.2 hv2
    have hmin : minInt ≤ (digitsValue (c :: rest) : Int) := by unfold minInt; omega
    unfold atoi
    simp only [List.head?_cons, Option.some.injEq, h1, h2, or_self, if_false, hall,
      Bool.true_eq_false, or_false, decide_False, Bool.false_eq_true, hmin, true_and]
    simp

theorem parseFloat32_nil : parseFloat32 [] = none := by decide

theorem parseFloat32_decimal (ip fp : List Char) (hip : ∀ c ∈ ip, c.isDigit = true)
    (hfp : ∀ c ∈ fp, c.isDigit = true) (hne : ip ≠ [] ∨ fp ≠ []) :
    parseFloat32 (ip ++ '.' :: fp) =
      f32Round ((digitsValue (ip ++ fp) * f32One : Nat) : Int) (10 ^ fp.length) := by
  have e := takeWhile_append_stop ip '.' fp hip (by decide)
  have hall : fp.all Char.isDigit = true := List.all_eq_true.2 hfp
  unfold parseFloat32
  simp only [e.1, e.2, hall, true_and]
  rw [if_pos hne]

theorem matchRate_nil : matchRate [] = ([], 0) := rfl

theorem matchRate_rate (r : List Char) (hr : r ≠ []) (hr2 : ∀ c ∈ r, isRateChar c = true) :
    matchRate ('|' :: '@' :: r) = (r, 2 + r.length) := by
  unfold matchRate
  simp only [(takeWhile_all r hr2).1, hr, if_false]

theorem findAll_single (c : Char) (cs : List Char) (m : Submatch) (n : Nat)
    (h : matchHere (c :: cs) = some (m, n)) (hn : cs.length + 1 ≤ n) :
    findAllStringSubmatch (c :: cs) = [m] := by
  unfold findAllStringSubmatch
  simp only [findAllFrom, h]
  rw [findAllFrom_skip cs (n - 1) (by omega)]

theorem handleMessage_plain (b v m : List Char) (hb : b ≠ [])
    (hb2 : ∀ c ∈ b, isBucketChar c = true) (hv : v ≠ []) (hv2 : ∀ c ∈ v, c.isDigit = true)
    (hm : m = ['c'] ∨ m = ['m', 's']) :
    handleMessage (b ++ ':' :: (v ++ '|' :: m)) = [packetOf ⟨b, v, m, []⟩] := by
  have hmall : ∀ c ∈ m, isAllowedChar c = true := by
    rcases hm with h | h <;> subst h <;> decide
  have hs : sanitize (b ++ ':' :: (v ++ '|' :: m)) = b ++ ':' :: (v ++ '|' :: m) := by
    apply sanitize_of_allowed
    intro c hc
    simp only [List.mem_append, List.mem_cons] at hc
    rcases hc with h | h | h | h | h
    · exact isAllowed_of_isBucket (hb2 c h)
    · rw [h]; decide
    · exact isAllowed_of_isDigit (hv2 c h)
    · rw [h]; decide
    · exact hmall c h
  have hmatch := matchHere_sample b v m [] hb hb2 hv hv2 hm
  rw [List.append_nil, matchRate_nil] at hmatch
  unfold handleMessage
  rw [hs]
  cases b with
  | nil => exact absurd rfl hb
  | cons c cs =>
    rw [List.cons_append] at hmatch ⊢
    rw [findAll_single c _ _ _ hmatch (by simp; omega)]
    rfl

theorem handleMessage_rated (b v m r : List Char) (hb : b ≠ [])
    (hb2 : ∀ c ∈ b, isBucketChar c = true) (hv : v ≠ []) (hv2 : ∀ c ∈ v, c.isDigit = true)
    (hm : m = ['c'] ∨ m = ['m', 's']) (hr : r ≠ []) (hr2 : ∀ c ∈ r, isRateChar c = true) :
    handleMessage (b ++ ':' :: (v ++ '|' :: (m ++ '|' :: '@' :: r))) =
      [packetOf ⟨b, v, m, r⟩] := by
  have hmall : ∀ c ∈ m, isAllowedChar c = true := by
    rcases hm with h | h <;> subst h <;> decide
  have hs : sanitize (b ++ ':' :: (v ++ '|' :: (m ++ '|' :: '@' :: r))) =
      b ++ ':' :: (v ++ '|' :: (m ++ '|' :: '@' :: r)) := by
    apply sanitize_of_allowed
    intro c hc
    simp only [List.mem_append, List.mem_cons] at hc
    rcases hc with h | h | h | h | h | h | h | h
    · exact isAllowed_of_isBucket (hb2 c h)
    · rw [h]; decide
    · exact isAllowed_of_isDigit (hv2 c h)
    · rw [h]; decide
    · exact hmall c h
    · rw [h]; decide
    · rw [h]; decide
    · exact isAllowed_of_isRate (hr2 c h)
  have hmatch := matchHere_sample b v m ('|' :: '@' :: r) hb hb2 hv hv2 hm
  rw [matchRate_rate r hr hr2] at hmatch
  unfold handleMessage
  rw [hs]
  cases b with
  | nil => exact absurd rfl hb
  | cons c cs =>
    rw [List.cons_append] at hmatch ⊢
    rw [findAll_single c _ _ _ hmatch (by simp; omega)]
    rfl

/-! ## Lemmas on float32 rounding and the counter update -/

theorem f32One_eq : f32One = 2 ^ 149 := by norm_num [f32One]

theorem f32Limit_eq : f32Limit = 2 ^ 277 := by norm_num [f32Limit]

theorem bitLenAux_le (fuel : Nat) : ∀ n L : Nat, n < 2 ^ L → bitLenAux fuel n ≤ L := by
  induction fuel with
  | zero => intro n L _; simp [bitLenAux]
  | succ f ih =>
    intro n L h
    unfold bitLenAux
    by_cases hn : n = 0
    · simp [hn]
    · rw [if_neg hn]
      cases L with
      | zero => simp at h; exact absurd h hn
      | succ L =>
        have : n / 2 < 2 ^ L := by
          rw [Nat.pow_succ] at h
          omega
        have := ih (n / 2) L this
        omega

theorem roundHalfEvenDiv_le (n d : Nat) : roundHalfEvenDiv n d ≤ n / d + 1 := by
  unfold roundHalfEvenDiv
  simp only
  split_ifs <;> omega

theorem roundHalfEvenDiv_mul (q d : Nat) (hd : 0 < d) : roundHalfEvenDiv (q * d) d = q := by
  unfold roundHalfEvenDiv
  simp only [Nat.mul_div_cancel _ hd, Nat.mul_mod_left, Nat.mul_zero, hd, if_true]

theorem f32Limit_double : f32Limit = 2 ^ 276 + 2 ^ 276 := by norm_num [f32Limit]

theorem f32RoundMag_isSome (n d : Nat) (h : n / d < 2 ^ 276) :
    ∃ r, f32RoundMag n d = some r := by
  have hsh : f32Shift (n / d) ≤ 276 := by
    unfold f32Shift
    have := bitLenAux_le 277 (n / d) 276 h
    omega
  have h2 := roundHalfEvenDiv_le n (d * 2 ^ f32Shift (n / d))
  rw [← Nat.div_div_eq_div_mul] at h2
  have h3 : n / d / 2 ^ f32Shift (n / d) * 2 ^ f32Shift (n / d) ≤ n / d := Nat.div_mul_le_self _ _
  have hpow : ∀ a b : Nat, a ≤ b → (2 : Nat) ^ a ≤ 2 ^ b :=
    fun a b hab => Nat.pow_le_pow_right Nat.zero_lt_two hab
  have h4 : (2 : Nat) ^ f32Shift (n / d) ≤ 2 ^ 276 := hpow _ _ hsh
  have h5 : roundHalfEvenDiv n (d * 2 ^ f32Shift (n / d)) * 2 ^ f32Shift (n / d) ≤
      n / d + 2 ^ f32Shift (n / d) := by
    calc roundHalfEvenDiv n (d * 2 ^ f32Shift (n / d)) * 2 ^ f32Shift (n / d)
        ≤ (n / d / 2 ^ f32Shift (n / d) + 1) * 2 ^ f32Shift (n / d) :=
          Nat.mul_le_mul_right _ h2
      _ = n / d / 2 ^ f32Shift (n / d) * 2 ^ f32Shift (n / d) + 2 ^ f32Shift (n / d) := by
          rw [Nat.add_mul, Nat.one_mul]
      _ ≤ n / d + 2 ^ f32Shift (n / d) := Nat.add_le_add_right h3 _
  have hlim := f32Limit_double
  generalize (2 : Nat) ^ 276 = X at h h4 hlim
  have h1 : ¬ (f32Limit ≤ n / d) := by omega
  have h7 : roundHalfEvenDiv n (d * 2 ^ f32Shift (n / d)) * 2 ^ f32Shift (n / d) < f32Limit := by
    omega
  refine ⟨roundHalfEvenDiv n (d * 2 ^ f32Shift (n / d)) * 2 ^ f32Shift (n / d), ?_⟩
  unfold f32RoundMag
  simp only [h1, if_false]
  rw [if_pos h7]

theorem f32RoundMag_exact (N d : Nat) (hd : 0 < d) (hdvd : 2 ^ f32Shift N ∣ N)
    (hlim : N < f32Limit) : f32RoundMag (N * d) d = some N := by
  obtain ⟨q, hq⟩ := hdvd
  have h1 : ¬ (f32Limit ≤ N) := by omega
  have e : N * d = q * (d * 2 ^ f32Shift N) := by
    conv_lhs => rw [hq]
    ring
  have e2 : q * 2 ^ f32Shift N = N := by rw [Nat.mul_comm]; exact hq.symm
  have e3 : roundHalfEvenDiv (N * d) (d * 2 ^ f32Shift N) = q := by
    rw [e]; exact roundHalfEvenDiv_mul q _ (Nat.mul_pos hd (Nat.two_pow_pos _))
  unfold f32RoundMag
  simp only [Nat.mul_div_cancel _ hd, h1, if_false, e3, e2, hlim, if_true]

theorem f32Shift_dvd (m j : Nat) (hm : m ≤ 2 ^ 24) : 2 ^ f32Shift (m * 2 ^ j) ∣ m * 2 ^ j := by
  rcases Nat.lt_or_ge m (2 ^ 24) with h | h
  · have hb : m * 2 ^ j < 2 ^ (24 + j) := by
      rw [Nat.pow_add]; exact Nat.mul_lt_mul_of_pos_right h (Nat.two_pow_pos _)
    have := bitLenAux_le 277 _ _ hb
    have hsh : f32Shift (m * 2 ^ j) ≤ j := by unfold f32Shift; omega
    exact Dvd.dvd.mul_left (Nat.pow_dvd_pow 2 hsh) m
  · have hm2 : m = 2 ^ 24 := Nat.le_antisymm hm h
    have hb : m * 2 ^ j < 2 ^ (25 + j) := by
      rw [hm2, ← Nat.pow_add]; exact Nat.pow_lt_pow_right (by decide) (by omega)
    have := bitLenAux_le 277 _ _ hb
    have hsh : f32Shift (m * 2 ^ j) ≤ 24 + j := by unfold f32Shift; omega
    rw [hm2, ← Nat.pow_add] at hsh ⊢
    exact Nat.pow_dvd_pow 2 hsh

theorem f32Round_exact (z : Int) (d : Nat) (hd : 0 < d)
    (hdvd : 2 ^ f32Shift z.natAbs ∣ z.natAbs) (hlim : z.natAbs < f32Limit) :
    f32Round (z * d) d = some ⟨z⟩ := by
  unfold f32Round
  have e : (z * (d : Int)).natAbs = z.natAbs * d := by
    rw [Int.natAbs_mul, Int.natAbs_ofNat]
  rw [e, f32RoundMag_exact _ d hd hdvd hlim]
  have hdpos : (0 : Int) < d := by exact_mod_cast hd
  by_cases hz : z < 0
  · have : z * d < 0 := Int.mul_neg_of_neg_of_pos hz hdpos
    simp only [Option.map_some', if_pos this]
    congr 2
    omega
  · have : ¬ (z * d < 0) := by
      have : 0 ≤ z * d := Int.mul_nonneg (by omega) (by omega)
      omega
    simp only [Option.map_some', if_neg this]
    congr 2
    omega

theorem mul_pow_lt_f32Limit (m a j : Nat) (hm : m ≤ 2 ^ a) (haj : a + j < 277) :
    m * 2 ^ j < f32Limit := by
  have hlt : ∀ x y : Nat, x < y → (2 : Nat) ^ x < 2 ^ y :=
    fun x y h => Nat.pow_lt_pow_right (by decide) h
  have h1 : m * 2 ^ j ≤ 2 ^ (a + j) := by
    rw [Nat.pow_add]; exact Nat.mul_le_mul_right _ hm
  have h2 := hlt _ _ haj
  have h3 := f32Limit_eq
  omega

theorem f32OfInt_exact (v : Int) (hv : v.natAbs ≤ 2 ^ 24) :
    f32OfInt v = some ⟨v * f32One⟩ := by
  have e : (v * (f32One : Int)).natAbs = v.natAbs * 2 ^ 149 := by
    rw [Int.natAbs_mul, Int.natAbs_ofNat, f32One_eq]
  have h := f32Round_exact (v * f32One) 1 (by decide)
    (by rw [e]; exact f32Shift_dvd _ _ hv)
    (by rw [e]; exact mul_pow_lt_f32Limit _ 24 149 hv (by decide))
  unfold f32OfInt
  rw [← h]
  congr 1
  simp

theorem pow2Neg_units (k : Nat) (hk : k ≤ 149) :
    (F32.pow2Neg k).units = ((2 ^ (149 - k) : Nat) : Int) := by
  unfold F32.pow2Neg
  simp only [f32One_eq]
  rw [Nat.pow_div hk (by decide)]

theorem f32Recip_pow2Neg (k : Nat) (hk : k ≤ 127) :
    f32Recip (F32.pow2Neg k) = some ⟨((2 ^ k : Nat) : Int) * f32One⟩ := by
  have hu := pow2Neg_units k (by omega)
  have hpos : 0 < 2 ^ (149 - k) := Nat.two_pow_pos _
  have e : ((((2 ^ k : Nat) : Int) * (f32One : Int))).natAbs = 1 * 2 ^ (k + 149) := by
    rw [Int.natAbs_mul, Int.natAbs_ofNat, Int.natAbs_ofNat, f32One_eq, ← Nat.pow_add,
      Nat.one_mul]
  have h := f32Round_exact (((2 ^ k : Nat) : Int) * f32One) (2 ^ (149 - k)) hpos
    (by rw [e]; exact f32Shift_dvd 1 _ (Nat.one_le_two_pow))
    (by rw [e]; exact mul_pow_lt_f32Limit 1 0 _ (by simp) (by omega))
  unfold f32Recip
  rw [hu]
  have h0 : ¬ (((2 ^ (149 - k) : Nat) : Int) = 0) := by
    have : (0 : Int) < ((2 ^ (149 - k) : Nat) : Int) := by exact_mod_cast hpos
    omega
  have h1 : ¬ (((2 ^ (149 - k) : Nat) : Int) < 0) := by
    have : (0 : Int) < ((2 ^ (149 - k) : Nat) : Int) := by exact_mod_cast hpos
    omega
  rw [if_neg h0, if_neg h1, Int.natAbs_ofNat, ← h]
  congr 1
  rw [f32One_eq]
  have : (2 : Nat) ^ k * 2 ^ 149 * 2 ^ (149 - k) = 2 ^ 149 * 2 ^ 149 := by
    rw [← Nat.pow_add, ← Nat.pow_add, ← Nat.pow_add]
    congr 1
    omega
  exact_mod_cast this.symm

theorem f32Mul_exact (v : Int) (k : Nat) (hv : v.natAbs ≤ 2 ^ 24) (hk : k ≤ 103) :
    f32Mul (some ⟨v * f32One⟩) (some ⟨((2 ^ k : Nat) : Int) * f32One⟩) =
      some ⟨v * ((2 ^ k : Nat) : Int) * f32One⟩ := by
  have e : (v * ((2 ^ k : Nat) : Int) * (f32One : Int)).natAbs = v.natAbs * 2 ^ (k + 149) := by
    rw [Int.natAbs_mul, Int.natAbs_mul, Int.natAbs_ofNat, Int.natAbs_ofNat, f32One_eq,
      Nat.mul_assoc, ← Nat.pow_add]
  have h := f32Round_exact (v * ((2 ^ k : Nat) : Int) * f32One) f32One (by decide)
    (by rw [e]; exact f32Shift_dvd _ _ hv)
    (by rw [e]; exact mul_pow_lt_f32Limit _ 24 _ hv (by omega))
  unfold f32Mul
  simp only
  rw [← h]
  congr 1
  ring

theorem f32ToInt_exact (w : Int) (h1 : minInt ≤ w) (h2 : w ≤ maxInt) :
    f32ToInt (some ⟨w * f32One⟩) = w := by
  unfold f32ToInt
  simp only
  rw [Int.mul_tdiv_cancel w (by decide), if_pos ⟨h1, h2⟩]

theorem mapGet_mapSet_self {α : Type} (k : String) (v : α) (m : List (String × α)) :
    mapGet k (mapSet k v m) = some v := by
  induction m with
  | nil => simp [mapSet, mapGet]
  | cons e rest ih =>
    obtain ⟨k', v'⟩ := e
    by_cases h : k' = k
    · simp [mapSet, mapGet, h]
    · simp [mapSet, mapGet, h, ih]

theorem monitorPacket_counter (st : State) (s : Packet) (hm : s.Modifier ≠ "ms") :
    monitorPacket st s =
      ⟨mapSet s.Bucket (wrapInt ((mapGet s.Bucket st.counters).getD 0 +
          f32ToInt (f32Mul (f32OfInt s.Value) (f32Recip s.Sampling))))
        (match mapGet s.Bucket st.counters with
          | some _ => st.counters
          | none => mapSet s.Bucket 0 st.counters), st.timers⟩ := by
  unfold monitorPacket
  rw [if_neg hm]
  cases h : mapGet s.Bucket st.counters with
  | none => simp [mapGet_mapSet_self]
  | some c => simp [h]

/-! ## Properties of `submit` -/

/-- C1: with the default flush interval of 10 seconds and a counter `foo`
of 100, the `stats.foo` line carries rate 0, not 100 / 10 = 10: line 96
divides by `10 * 1e9 / 1e3 = 10000000`. The `stats_counts.foo` line carries
100. -/
theorem submit_rate_at_default_interval :
    rateDivisor Config.default = 10000000 ∧
    (submit Config.default ⟨false, true, "T"⟩ ⟨[("foo", 100)], []⟩).map
        (fun r => r.fileData) =
      Except.ok (some [⟨"stats.foo", 0⟩, ⟨"stats_counts.foo", 100⟩]) := by
  decide

/-- C2: the bytes written to the file are the buffer as it was before the
`statsd.numStats` line was appended: `data` is taken at line 138 and the
line is added to `buffer` at line 139. For one counter `hits` of 20000000
the file receives two lines and no `statsd.numStats` line, while the
buffer ends with it. -/
theorem submit_written_data_lacks_numStats :
    (submit Config.default ⟨false, true, "T"⟩ ⟨[("hits", 20000000)], []⟩).map
        (fun r => (r.fileData.map (renderLines "T"), renderLines "T" r.buffer)) =
      Except.ok (some "stats.hits 2 T\nstats_counts.hits 20000000 T\n",
        "stats.hits 2 T\nstats_counts.hits 20000000 T\nstatsd.numStats 1 T\n") := by
  decide

/-- C3, as stated, fails: when the output file cannot be opened (and the
dial fails), `submit` returns at the guard of line 88 and the counter and
the timer list keep their values. -/
theorem submit_no_reset_without_sink :
    submit Config.default ⟨false, false, "T"⟩ ⟨[("foo", 100)], [("t", [7])]⟩ =
      Except.ok ⟨⟨[("foo", 100)], [("t", [7])]⟩, [], none, none⟩ ∧
    mapGet "foo" ([("foo", 100)] : List (String × Int)) ≠ some 0 := by
  decide

/-- C4: with the network sink enabled, the dial succeeding and a bucket
producing output, nothing is written to the connection, while the file
receives the lines: the `client` of line 140 is the outer variable, which
line 72 never assigns. -/
theorem submit_network_sink_not_written :
    (submit ⟨"localhost:2003", 10, 90⟩ ⟨true, true, "T"⟩ ⟨[("req", 50000000)], []⟩).map
        (fun r => (r.clientData, r.fileData)) =
      Except.ok (none, some [⟨"stats.req", 5⟩, ⟨"stats_counts.req", 50000000⟩]) := by
  decide


/-- C3, amended: when the output file is opened and the flush runs to its
end (flush interval of 1 to 9223372036 seconds, threshold of 1 to 199),
every counter is 0 and every timer list is empty afterwards, with the same
keys, whatever the dial did; when the file cannot be opened and there is no
connection, `submit` changes nothing and writes nothing. -/
theorem submit_reset_when_file_opened (cfg : Config) (env : Env) (st : State) :
    (env.openOk = true → 1 ≤ cfg.flushInterval → cfg.flushInterval ≤ 9223372036 →
      0 < cfg.percentThreshold → cfg.percentThreshold < 200 →
      (∀ e ∈ st.timers, (e.2.length : Int) ≤ maxInt) →
      ∃ r, submit cfg env st = Except.ok r ∧
        (∀ e ∈ r.state.counters, e.2 = 0) ∧ (∀ e ∈ r.state.timers, e.2 = []) ∧
        r.state.counters.map Prod.fst = st.counters.map Prod.fst ∧
        r.state.timers.map Prod.fst = st.timers.map Prod.fst) ∧
    ((cfg.graphiteAddress = "-" ∨ env.dialOk = false) → env.openOk = false →
      submit cfg env st = Except.ok ⟨st, [], none, none⟩) := by
  constructor
  · intro hopen h1 h2 h3 h4 hv
    obtain ⟨lc, nc, lt, nt, -, -, -, -, hs⟩ :=
      submit_run cfg env st hopen (rateDivisor_ne_zero cfg h1 h2) h3 h4 hv
    refine ⟨_, hs, ?_, ?_, ?_, ?_⟩
    · intro e he
      obtain ⟨a, -, rfl⟩ := List.mem_map.1 he
      rfl
    · intro e he
      obtain ⟨a, -, rfl⟩ := List.mem_map.1 he
      rfl
    · simp [List.map_map, Function.comp_def]
    · simp [List.map_map, Function.comp_def]
  · intro _ hopen
    simp [submit, hopen]

/-- Witness of `submit_reset_when_file_opened`. -/
theorem submit_reset_when_file_opened_witness :
    (∃ r, submit Config.default ⟨true, true, "T"⟩ ⟨[("foo", 100)], [("t", [3, 1, 2])]⟩ =
        Except.ok r ∧
      (∀ e ∈ r.state.counters, e.2 = 0) ∧ (∀ e ∈ r.state.timers, e.2 = []) ∧
      r.state.counters.map Prod.fst = [("foo", (100 : Int))].map Prod.fst ∧
      r.state.timers.map Prod.fst = [("t", ([3, 1, 2] : List Int))].map Prod.fst) ∧
    submit Config.default ⟨false, false, "T"⟩ ⟨[("foo", 100)], [("t", [3, 1, 2])]⟩ =
      Except.ok ⟨⟨[("foo", 100)], [("t", [3, 1, 2])]⟩, [], none, none⟩ :=
  ⟨(submit_reset_when_file_opened Config.default ⟨true, true, "T"⟩
      ⟨[("foo", 100)], [("t", [3, 1, 2])]⟩).1 rfl (by decide) (by decide) (by decide)
      (by decide) (by decide),
   (submit_reset_when_file_opened Config.default ⟨false, false, "T"⟩
      ⟨[("foo", 100)], [("t", [3, 1, 2])]⟩).2 (Or.inr rfl) rfl⟩


/-- C6: for a timer bucket with more than one sample and a threshold
strictly between 0 and 100, `thresholdIndex` is 0 and `numInThreshold` is
the count, and the `.mean` line that `submit` writes carries the sum of all
the samples of the bucket divided by their count, truncated. The sum is
the Go `int` sum of lines 117-120, which is the exact sum whenever that
fits an `int`. Samples 1..10 with threshold 90 give mean 5, upper 10,
upper_90 10, lower 1, count 10. -/
theorem submit_timer_mean_over_all_samples (cfg : Config) (env : Env) (st : State)
    (hopen : env.openOk = true) (h1 : 1 ≤ cfg.flushInterval)
    (h2 : cfg.flushInterval ≤ 9223372036) (h3 : 0 < cfg.percentThreshold)
    (h4 : cfg.percentThreshold < 100)
    (hv : ∀ e ∈ st.timers, (e.2.length : Int) ≤ maxInt)
    (u : String) (t : List Int) (hmem : (u, t) ∈ st.timers) (hlen : 1 < t.length) :
    thresholdIndex cfg.percentThreshold t.length = 0 ∧
    numInThreshold cfg.percentThreshold t.length = t.length ∧
    (∃ res data, submit cfg env st = Except.ok res ∧ res.fileData = some data ∧
      (⟨"stats.timers." ++ u ++ ".mean", Int.tdiv (wrapInt t.sum) t.length⟩ : Line) ∈ data ∧
      (minInt ≤ t.sum → t.sum ≤ maxInt →
        (⟨"stats.timers." ++ u ++ ".mean", Int.tdiv t.sum t.length⟩ : Line) ∈ data)) ∧
    (submit ⟨"-", 10, 90⟩ ⟨false, true, "T"⟩
        ⟨[], [("t", [1, 2, 3, 4, 5, 6, 7, 8, 9, 10])]⟩).map (fun r => r.fileData) =
      Except.ok (some [⟨"stats.timers.t.mean", 5⟩, ⟨"stats.timers.t.upper", 10⟩,
        ⟨"stats.timers.t.upper_90", 10⟩, ⟨"stats.timers.t.lower", 1⟩,
        ⟨"stats.timers.t.count", 10⟩]) := by
  have h5 : cfg.percentThreshold < 200 := by omega
  have hmax := hv (u, t) hmem
  refine ⟨thresholdIndex_eq_zero _ _ h3 h5,
    numInThreshold_eq_count _ _ h3 h5 (by omega) hmax, ?_, by decide⟩
  have hne : t ≠ [] := by intro h; rw [h] at hlen; simp at hlen
  obtain ⟨res, data, r, hs, hd, hr, hl⟩ :=
    submit_timer_lines cfg env st hopen h1 h2 h3 h5 hv u t hmem hne
  rw [reduceTimer_many _ t hlen hmax h3 h5] at hr
  cases hr
  have hin := hl _ (List.mem_cons_self _ _)
  refine ⟨res, data, hs, hd, hin, fun ha hb => ?_⟩
  rw [wrapInt_of_range ha hb] at hin
  exact hin

/-- Witness of `submit_timer_mean_over_all_samples`. -/
theorem submit_timer_mean_over_all_samples_witness :
    thresholdIndex 90 (([4, 9, 2] : List Int).length : Int) = 0 ∧
    numInThreshold 90 (([4, 9, 2] : List Int).length : Int) = ([4, 9, 2] : List Int).length ∧
    (∃ res data, submit Config.default ⟨false, true, "T"⟩ ⟨[], [("t", [4, 9, 2])]⟩ =
        Except.ok res ∧ res.fileData = some data ∧
      (⟨"stats.timers." ++ "t" ++ ".mean",
        Int.tdiv (wrapInt ([4, 9, 2] : List Int).sum) ([4, 9, 2] : List Int).length⟩ : Line)
          ∈ data ∧
      (minInt ≤ ([4, 9, 2] : List Int).sum → ([4, 9, 2] : List Int).sum ≤ maxInt →
        (⟨"stats.timers." ++ "t" ++ ".mean",
          Int.tdiv ([4, 9, 2] : List Int).sum ([4, 9, 2] : List Int).length⟩ : Line) ∈ data)) ∧
    (submit ⟨"-", 10, 90⟩ ⟨false, true, "T"⟩
        ⟨[], [("t", [1, 2, 3, 4, 5, 6, 7, 8, 9, 10])]⟩).map (fun r => r.fileData) =
      Except.ok (some [⟨"stats.timers.t.mean", 5⟩, ⟨"stats.timers.t.upper", 10⟩,
        ⟨"stats.timers.t.upper_90", 10⟩, ⟨"stats.timers.t.lower", 1⟩,
        ⟨"stats.timers.t.count", 10⟩]) :=
  submit_timer_mean_over_all_samples Config.default ⟨false, true, "T"⟩
    ⟨[], [("t", [4, 9, 2])]⟩ rfl (by decide) (by decide) (by decide) (by decide) (by decide)
    "t" [4, 9, 2] (by decide) (by decide)

/-- For a threshold of 1 to 199 and a non-empty timer list, in any order,
the lines that `submit` writes for the bucket carry the least sample as
`.lower`, the greatest as `.upper` and as `.upper_<percentThreshold>`, and
the number of samples as `.count`; with exactly one sample `.mean`, `.lower`
and `.upper` are that sample. The flush must run: file opened, flush
interval of 1 to 9223372036 seconds. -/
theorem submit_timer_lower_upper_count (cfg : Config) (env : Env) (st : State)
    (hopen : env.openOk = true) (h1 : 1 ≤ cfg.flushInterval)
    (h2 : cfg.flushInterval ≤ 9223372036) (h3 : 0 < cfg.percentThreshold)
    (h4 : cfg.percentThreshold < 200)
    (hv : ∀ e ∈ st.timers, (e.2.length : Int) ≤ maxInt)
    (u : String) (t : List Int) (hmem : (u, t) ∈ st.timers) (hne : t ≠ []) :
    (∃ res data mean lo hi, submit cfg env st = Except.ok res ∧ res.fileData = some data ∧
      lo ∈ t ∧ (∀ x ∈ t, lo ≤ x) ∧ hi ∈ t ∧ (∀ x ∈ t, x ≤ hi) ∧
      (⟨"stats.timers." ++ u ++ ".mean", mean⟩ : Line) ∈ data ∧
      (⟨"stats.timers." ++ u ++ ".upper", hi⟩ : Line) ∈ data ∧
      (⟨"stats.timers." ++ u ++ ".upper_" ++ toString cfg.percentThreshold, hi⟩ : Line) ∈ data ∧
      (⟨"stats.timers." ++ u ++ ".lower", lo⟩ : Line) ∈ data ∧
      (⟨"stats.timers." ++ u ++ ".count", (t.length : Int)⟩ : Line) ∈ data ∧
      (∀ x, t = [x] → mean = x ∧ lo = x ∧ hi = x)) ∧
    (∀ q x : Int, reduceTimer q [x] = Except.ok ⟨x, x, x, x, 1⟩) := by
  refine ⟨?_, reduceTimer_single⟩
  obtain ⟨res, data, r, hs, hd, hr, hl⟩ :=
    submit_timer_lines cfg env st hopen h1 h2 h3 h4 hv u t hmem hne
  obtain ⟨r2, hr2, hlo, hlo2, hhi, hhi2, hmt, hcnt, -, hmean⟩ :=
    reduceTimer_spec cfg.percentThreshold t hne (hv (u, t) hmem) h3 h4
  rw [hr] at hr2
  cases hr2
  refine ⟨res, data, r.mean, r.lower, r.upper, hs, hd, hlo, hlo2, hhi, hhi2, ?_, ?_, ?_, ?_,
    ?_, ?_⟩
  · exact hl _ (by simp [timerLines])
  · exact hl _ (by simp [timerLines])
  · rw [← hmt]; exact hl _ (by simp [timerLines])
  · exact hl _ (by simp [timerLines])
  · rw [← hcnt]; exact hl _ (by simp [timerLines])
  · intro x hx
    subst hx
    have hlx : r.lower = x := by simpa using hlo
    have hux : r.upper = x := by simpa using hhi
    exact ⟨by rw [hmean rfl, hlx], hlx, hux⟩

/-- An instance of `submit_timer_lower_upper_count`, with three samples. -/
theorem submit_timer_lower_upper_count_witness :
    (∃ res data mean lo hi,
      submit Config.default ⟨false, true, "T"⟩ ⟨[], [("t", [3, 1, 2])]⟩ = Except.ok res ∧
      res.fileData = some data ∧
      lo ∈ ([3, 1, 2] : List Int) ∧ (∀ x ∈ ([3, 1, 2] : List Int), lo ≤ x) ∧
      hi ∈ ([3, 1, 2] : List Int) ∧ (∀ x ∈ ([3, 1, 2] : List Int), x ≤ hi) ∧
      (⟨"stats.timers." ++ "t" ++ ".mean", mean⟩ : Line) ∈ data ∧
      (⟨"stats.timers." ++ "t" ++ ".upper", hi⟩ : Line) ∈ data ∧
      (⟨"stats.timers." ++ "t" ++ ".upper_" ++ toString Config.default.percentThreshold, hi⟩ :
        Line) ∈ data ∧
      (⟨"stats.timers." ++ "t" ++ ".lower", lo⟩ : Line) ∈ data ∧
      (⟨"stats.timers." ++ "t" ++ ".count", (([3, 1, 2] : List Int).length : Int)⟩ : Line)
        ∈ data ∧
      (∀ x, ([3, 1, 2] : List Int) = [x] → mean = x ∧ lo = x ∧ hi = x)) ∧
    (∀ q x : Int, reduceTimer q [x] = Except.ok ⟨x, x, x, x, 1⟩) :=
  submit_timer_lower_upper_count Config.default ⟨false, true, "T"⟩ ⟨[], [("t", [3, 1, 2])]⟩
    rfl (by decide) (by decide) (by decide) (by decide) (by decide) "t" [3, 1, 2]
    (by decide) (by decide)

/-- C7: with a percentile threshold of 0 and the timer list `[3, 1, 2]`,
`submit` panics at line 121 before line 126, so no `.lower`, `.upper`,
`.upper_0` or `.count` line is written for the bucket; the claim has lower
1, upper 3 and count 3 written, which is what the same state gives with the
default threshold of 90. -/
theorem submit_timer_lines_lost_at_threshold_zero :
    submit ⟨"-", 10, 0⟩ ⟨false, true, "T"⟩ ⟨[], [("t", [3, 1, 2])]⟩ =
      Except.error Fault.divideByZero ∧
    (submit ⟨"-", 10, 90⟩ ⟨false, true, "T"⟩ ⟨[], [("t", [3, 1, 2])]⟩).map
        (fun r => r.fileData) =
      Except.ok (some [⟨"stats.timers.t.mean", 2⟩, ⟨"stats.timers.t.upper", 3⟩,
        ⟨"stats.timers.t.upper_90", 3⟩, ⟨"stats.timers.t.lower", 1⟩,
        ⟨"stats.timers.t.count", 3⟩]) := by
  decide

/-! ## Properties of `monitor` -/

set_option maxRecDepth 8000 in
/-- C5, as stated, fails: a counter sample of value 16777217 at sampling
rate 1.0 adds 16777216, because `float32(16777217)` is 16777216. -/
theorem monitorPacket_counter_float32_rounding :
    mapGet "hits" (monitorPacket State.init ⟨"hits", 16777217, "c", F32.pow2Neg 0⟩).counters =
      some 16777216 ∧
    (F32.pow2Neg 0).toRat = 1 ∧ (16777216 : Int) ≠ 0 + 16777217 / 1 := by
  refine ⟨by decide, ?_, by decide⟩
  norm_num [F32.toRat, F32.pow2Neg, f32One]

set_option maxRecDepth 8000 in
/-- C5, amended: for a counter packet whose value has magnitude at most
2^24 and whose sampling rate is a power of two `2^-k` with `k ≤ 38` (1.0,
0.5, 0.25, ...), the step sets `counters[bucket]` to its previous value (0
when absent) plus `v / r = v * 2^k`, provided the sum fits an `int`, and
leaves `timers` alone; three samples of value 1 at rate 0.5 take an empty
state to 6. -/
theorem monitorPacket_counter_power_of_two_rate (st : State) (b m : String) (v : Int)
    (k : Nat) (hm : m ≠ "ms") (hv : v.natAbs ≤ 2 ^ 24) (hk : k ≤ 38)
    (h1 : minInt ≤ (mapGet b st.counters).getD 0 + v * 2 ^ k)
    (h2 : (mapGet b st.counters).getD 0 + v * 2 ^ k ≤ maxInt) :
    (F32.pow2Neg k).toRat = 1 / 2 ^ k ∧
    mapGet b (monitorPacket st ⟨b, v, m, F32.pow2Neg k⟩).counters =
      some ((mapGet b st.counters).getD 0 + v * 2 ^ k) ∧
    (monitorPacket st ⟨b, v, m, F32.pow2Neg k⟩).timers = st.timers ∧
    monitorPackets State.init
        [⟨"b", 1, "c", F32.pow2Neg 1⟩, ⟨"b", 1, "c", F32.pow2Neg 1⟩,
          ⟨"b", 1, "c", F32.pow2Neg 1⟩] = ⟨[("b", 6)], []⟩ := by
  refine ⟨?_, ?_, ?_, by decide⟩
  · unfold F32.toRat
    rw [pow2Neg_units k (by omega), f32One_eq]
    have hk2 : k ≤ 149 := by omega
    have e : (2 : ℚ) ^ 149 = 2 ^ (149 - k) * 2 ^ k := by
      rw [← pow_add]; congr 1; omega
    rw [Int.cast_natCast, Nat.cast_pow, Nat.cast_pow, Nat.cast_ofNat, e]
    field_simp
  · rw [monitorPacket_counter st _ hm]
    simp only
    rw [mapGet_mapSet_self, f32OfInt_exact v hv, f32Recip_pow2Neg k (by omega),
      f32Mul_exact v k hv (by omega)]
    have hpow : ((2 ^ k : Nat) : Int) = 2 ^ k := by push_cast; rfl
    have hb : v.natAbs * 2 ^ k ≤ 2 ^ 24 * 2 ^ 38 :=
      Nat.mul_le_mul hv (Nat.pow_le_pow_right (by decide) hk)
    have hb2 : (v * ((2 ^ k : Nat) : Int)).natAbs ≤ 2 ^ 24 * 2 ^ 38 := by
      rw [Int.natAbs_mul, Int.natAbs_ofNat]; exact hb
    have hr1 : minInt ≤ v * ((2 ^ k : Nat) : Int) := by unfold minInt; omega
    have hr2 : v * ((2 ^ k : Nat) : Int) ≤ maxInt := by unfold maxInt; omega
    rw [f32ToInt_exact _ hr1 hr2, hpow, wrapInt_of_range h1 h2]
  · rw [monitorPacket_counter st _ hm]

/-- Witness of `monitorPacket_counter_power_of_two_rate`. -/
theorem monitorPacket_counter_power_of_two_rate_witness :
    (F32.pow2Neg 2).toRat = 1 / 2 ^ 2 ∧
    mapGet "b" (monitorPacket ⟨[("b", 5)], []⟩ ⟨"b", 3, "c", F32.pow2Neg 2⟩).counters =
      some ((mapGet "b" ([("b", 5)] : List (String × Int))).getD 0 + 3 * 2 ^ 2) ∧
    (monitorPacket ⟨[("b", 5)], []⟩ ⟨"b", 3, "c", F32.pow2Neg 2⟩).timers = [] ∧
    monitorPackets State.init
        [⟨"b", 1, "c", F32.pow2Neg 1⟩, ⟨"b", 1, "c", F32.pow2Neg 1⟩,
          ⟨"b", 1, "c", F32.pow2Neg 1⟩] = ⟨[("b", 6)], []⟩ :=
  monitorPacket_counter_power_of_two_rate ⟨[("b", 5)], []⟩ "b" "c" 3 2 (by decide) (by decide)
    (by decide) (by decide) (by decide)


theorem matchHere_no_colon (s : List Char) (h : ∀ c ∈ s, c ≠ ':') : matchHere s = none := by
  unfold matchHere
  simp only
  split_ifs with hb
  · rfl
  · split
    · rename_i s1 heq
      have hmem : ':' ∈ s.dropWhile isBucketChar := by rw [heq]; exact List.mem_cons_self _ _
      exact absurd rfl (h ':' ((List.dropWhile_suffix _).subset hmem))
    · rfl

theorem findAllFrom_no_colon (s : List Char) (h : ∀ c ∈ s, c ≠ ':') : findAllFrom 0 s = [] := by
  induction s with
  | nil => rfl
  | cons c cs ih =>
    simp only [findAllFrom, matchHere_no_colon (c :: cs) h]
    exact ih (fun x hx => h x (List.mem_cons_of_mem _ hx))

theorem matchHere_no_digit (b rest : List Char) (c : Char)
    (hb2 : ∀ x ∈ b, isBucketChar x = true) (hc : c.isDigit = false) :
    matchHere (b ++ ':' :: c :: rest) = none := by
  have e := takeWhile_append_stop b ':' (c :: rest) hb2 (by decide)
  unfold matchHere
  simp only [e.1, e.2, List.takeWhile, hc]
  split_ifs <;> rfl

theorem findAll_no_digit (b rest : List Char) (c : Char)
    (hb2 : ∀ x ∈ b, isBucketChar x = true) (hc : c.isDigit = false)
    (hr : ∀ x ∈ c :: rest, x ≠ ':') :
    findAllStringSubmatch (b ++ ':' :: c :: rest) = [] := by
  unfold findAllStringSubmatch
  induction b with
  | nil =>
    have h := matchHere_no_digit [] rest c (fun x hx => absurd hx (List.not_mem_nil x)) hc
    rw [List.nil_append] at h ⊢
    simp only [findAllFrom, h]
    exact findAllFrom_no_colon _ hr
  | cons a b ih =>
    have h := matchHere_no_digit (a :: b) rest c hb2 hc
    rw [List.cons_append] at h ⊢
    simp only [findAllFrom, h]
    exact ih (fun x hx => hb2 x (List.mem_cons_of_mem _ hx))

theorem f32Round_isSome (n d : Nat) (h : n / d < 2 ^ 276) :
    ∃ q, f32Round (n : Int) d = some q := by
  obtain ⟨r, hr⟩ := f32RoundMag_isSome n d h
  unfold f32Round
  rw [Int.natAbs_ofNat, hr]
  exact ⟨_, rfl⟩

theorem packetOf_plain (b v m : List Char) (hv : v ≠ []) (hv2 : ∀ c ∈ v, c.isDigit = true)
    (hv3 : (digitsValue v : Int) ≤ maxInt) :
    packetOf ⟨b, v, m, []⟩ = ⟨String.mk b, digitsValue v, String.mk m, ⟨f32One⟩⟩ := by
  unfold packetOf
  simp only [atoi_digits v hv hv2, if_pos hv3, parseFloat32_nil]

theorem packetOf_overflow (b v r : List Char) (hv : v ≠ []) (hv2 : ∀ c ∈ v, c.isDigit = true)
    (hv3 : maxInt < (digitsValue v : Int)) :
    packetOf ⟨b, v, ['c'], r⟩ =
        ⟨String.mk b, 1, "c", (parseFloat32 r).getD ⟨f32One⟩⟩ ∧
    packetOf ⟨b, v, ['m', 's'], r⟩ =
        ⟨String.mk b, 0, "ms", (parseFloat32 r).getD ⟨f32One⟩⟩ := by
  have h : ¬ ((digitsValue v : Int) ≤ maxInt) := by omega
  unfold packetOf
  simp only [atoi_digits v hv hv2, if_neg h]
  constructor <;> cases parseFloat32 r <;> simp

theorem handleMessage_no_digit (b x m : List Char) (c : Char)
    (hb2 : ∀ y ∈ b, isBucketChar y = true) (hc : c.isDigit = false)
    (hx : ∀ y ∈ c :: x, isAllowedChar y = true ∧ y ≠ ':') (hm : m = ['c'] ∨ m = ['m', 's']) :
    handleMessage (b ++ ':' :: c :: (x ++ '|' :: m)) = [] := by
  have hmall : ∀ y ∈ m, isAllowedChar y = true ∧ y ≠ ':' := by
    rcases hm with h | h <;> subst h <;> decide
  have hs : sanitize (b ++ ':' :: c :: (x ++ '|' :: m)) = b ++ ':' :: c :: (x ++ '|' :: m) := by
    apply sanitize_of_allowed
    intro y hy
    simp only [List.mem_append, List.mem_cons] at hy
    rcases hy with h | h | h | h | h | h
    · exact isAllowed_of_isBucket (hb2 y h)
    · rw [h]; decide
    · exact (hx y (by rw [h]; exact List.mem_cons_self _ _)).1
    · exact (hx y (List.mem_cons_of_mem _ h)).1
    · rw [h]; decide
    · exact (hmall y h).1
  have hr : ∀ y ∈ c :: (x ++ '|' :: m), y ≠ ':' := by
    intro y hy
    simp only [List.mem_append, List.mem_cons] at hy
    rcases hy with h | h | h | h
    · exact (hx y (by rw [h]; exact List.mem_cons_self _ _)).2
    · exact (hx y (List.mem_cons_of_mem _ h)).2
    · rw [h]; decide
    · exact (hmall y h).2
  unfold handleMessage
  rw [hs, findAll_no_digit b _ c hb2 hc hr]
  rfl

/-! ## Properties of `handleMessage` -/

set_option maxRecDepth 8000 in
/-- C8: for a bucket `b` of `[A-Za-z0-9_]+`, a digit string `v` whose value
fits an `int` and a modifier `m` of `c` or `ms`, the text `b:v|m` gives
exactly one packet `{b, v, m, 1.0}`, and the text `b:v|m|@r`, with `r` a
decimal fraction `ip.fp` below 2^127, gives exactly one packet `{b, v, m, q}`
where `q` is `r` rounded to `float32`. `foo:1|c` gives `{foo, 1, c, 1.0}`
and `foo:5|ms|@0.1` gives `{foo, 5, ms, 0.1}`, 0.1 being the `float32`
13421773 / 2^27. -/
theorem handleMessage_single_sample (b v m : List Char) (hb : b ≠ [])
    (hb2 : ∀ c ∈ b, isBucketChar c = true) (hv : v ≠ []) (hv2 : ∀ c ∈ v, c.isDigit = true)
    (hv3 : (digitsValue v : Int) ≤ maxInt) (hm : m = ['c'] ∨ m = ['m', 's']) :
    handleMessage (b ++ ':' :: (v ++ '|' :: m)) =
      [⟨String.mk b, digitsValue v, String.mk m, ⟨f32One⟩⟩] ∧
    (∀ ip fp : List Char, (∀ c ∈ ip, c.isDigit = true) → (∀ c ∈ fp, c.isDigit = true) →
      (ip ≠ [] ∨ fp ≠ []) → digitsValue (ip ++ fp) < 10 ^ fp.length * 2 ^ 127 →
      ∃ q, f32Round ((digitsValue (ip ++ fp) * f32One : Nat) : Int) (10 ^ fp.length) = some q ∧
        handleMessage (b ++ ':' :: (v ++ '|' :: (m ++ '|' :: '@' :: (ip ++ '.' :: fp)))) =
          [⟨String.mk b, digitsValue v, String.mk m, q⟩]) ∧
    (⟨f32One⟩ : F32).toRat = 1 ∧
    handleMessage "foo:1|c".toList = [⟨"foo", 1, "c", ⟨f32One⟩⟩] ∧
    handleMessage "foo:5|ms|@0.1".toList = [⟨"foo", 5, "ms", ⟨13421773 * 2 ^ 122⟩⟩] ∧
    (⟨13421773 * 2 ^ 122⟩ : F32).toRat = 13421773 / 2 ^ 27 := by
  refine ⟨?_, ?_, ?_, by decide, by decide, ?_⟩
  · rw [handleMessage_plain b v m hb hb2 hv hv2 hm, packetOf_plain b v m hv hv2 hv3]
  · intro ip fp hip hfp hne hlt
    have hdiv : digitsValue (ip ++ fp) * f32One / 10 ^ fp.length < 2 ^ 276 := by
      have hpos : 0 < 10 ^ fp.length := Nat.pos_pow_of_pos _ (by decide)
      rw [Nat.div_lt_iff_lt_mul hpos, f32One_eq]
      have e : (2 : Nat) ^ 276 * 10 ^ fp.length = 10 ^ fp.length * 2 ^ 127 * 2 ^ 149 := by
        rw [Nat.mul_assoc, ← Nat.pow_add, Nat.mul_comm]
      rw [e]
      exact Nat.mul_lt_mul_of_pos_right hlt (Nat.two_pow_pos _)
    obtain ⟨q, hq⟩ := f32Round_isSome _ _ hdiv
    refine ⟨q, hq, ?_⟩
    have hr2 : ∀ c ∈ ip ++ '.' :: fp, isRateChar c = true := by
      intro c hc
      simp only [List.mem_append, List.mem_cons] at hc
      unfold isRateChar
      rcases hc with h | h | h
      · simp [hip c h]
      · simp [h]
      · simp [hfp c h]
    rw [handleMessage_rated b v m (ip ++ '.' :: fp) hb hb2 hv hv2 hm (by simp) hr2]
    unfold packetOf
    simp only [atoi_digits v hv hv2, if_pos hv3, parseFloat32_decimal ip fp hip hfp hne, hq]
  · norm_num [F32.toRat, f32One]
  · norm_num [F32.toRat, f32One]

/-- Witness of `handleMessage_single_sample`. -/
theorem handleMessage_single_sample_witness :
    handleMessage ("gorets".toList ++ ':' :: ("42".toList ++ '|' :: ['m', 's'])) =
      [⟨String.mk "gorets".toList, digitsValue "42".toList, String.mk ['m', 's'], ⟨f32One⟩⟩] ∧
    (∀ ip fp : List Char, (∀ c ∈ ip, c.isDigit = true) → (∀ c ∈ fp, c.isDigit = true) →
      (ip ≠ [] ∨ fp ≠ []) → digitsValue (ip ++ fp) < 10 ^ fp.length * 2 ^ 127 →
      ∃ q, f32Round ((digitsValue (ip ++ fp) * f32One : Nat) : Int) (10 ^ fp.length) = some q ∧
        handleMessage ("gorets".toList ++ ':' :: ("42".toList ++ '|' ::
            (['m', 's'] ++ '|' :: '@' :: (ip ++ '.' :: fp)))) =
          [⟨String.mk "gorets".toList, digitsValue "42".toList, String.mk ['m', 's'], q⟩]) ∧
    (⟨f32One⟩ : F32).toRat = 1 ∧
    handleMessage "foo:1|c".toList = [⟨"foo", 1, "c", ⟨f32One⟩⟩] ∧
    handleMessage "foo:5|ms|@0.1".toList = [⟨"foo", 5, "ms", ⟨13421773 * 2 ^ 122⟩⟩] ∧
    (⟨13421773 * 2 ^ 122⟩ : F32).toRat = 13421773 / 2 ^ 27 :=
  handleMessage_single_sample "gorets".toList "42".toList ['m', 's'] (by decide) (by decide)
    (by decide) (by decide) (by decide) (Or.inr rfl)

theorem exists_first_non_digit (x : List Char) (h : ∃ c ∈ x, c.isDigit = false) :
    ∃ d c y, x = d ++ c :: y ∧ (∀ a ∈ d, a.isDigit = true) ∧ c.isDigit = false := by
  induction x with
  | nil => obtain ⟨c, hc, -⟩ := h; cases hc
  | cons a rest ih =>
    cases ha : a.isDigit with
    | false => exact ⟨[], a, rest, rfl, fun z hz => absurd hz (List.not_mem_nil z), ha⟩
    | true =>
      obtain ⟨c, hc, hcd⟩ := h
      have hc2 : c ∈ rest := by
        rcases List.mem_cons.1 hc with e | e
        · rw [e, ha] at hcd; cases hcd
        · exact e
      obtain ⟨d, c', y, hx, hd, hc'⟩ := ih ⟨c, hc2, hcd⟩
      refine ⟨a :: d, c', y, by rw [hx]; rfl, ?_, hc'⟩
      intro z hz
      rcases List.mem_cons.1 hz with e | e
      · rw [e]; exact ha
      · exact hd z e

theorem matchHere_bad_value (b x m : List Char) (hb2 : ∀ y ∈ b, isBucketChar y = true)
    (hx1 : ∀ y ∈ x, y ≠ '|') (hx2 : x = [] ∨ ∃ c ∈ x, c.isDigit = false) :
    matchHere (b ++ ':' :: (x ++ '|' :: m)) = none := by
  rcases hx2 with h0 | h1
  · subst h0
    exact matchHere_no_digit b m '|' hb2 (by decide)
  · have e := takeWhile_append_stop b ':' (x ++ '|' :: m) hb2 (by decide)
    unfold matchHere
    simp only [e.1, e.2]
    obtain ⟨d, c, y, hx, hd, hc⟩ := exists_first_non_digit x h1
    have hcne : c ≠ '|' := hx1 c (by rw [hx]; simp)
    have htext : x ++ '|' :: m = d ++ c :: (y ++ '|' :: m) := by
      rw [hx]; simp [List.append_assoc]
    have e2 := takeWhile_append_stop d c (y ++ '|' :: m) hd hc
    rw [htext]
    simp only [e2.1, e2.2]
    split_ifs
    · rfl
    · rfl
    · split
      · rename_i heq
        simp only [List.cons.injEq] at heq
        exact absurd heq.1 hcne
      · rfl

theorem findAll_bad_value (b x m : List Char) (hb2 : ∀ y ∈ b, isBucketChar y = true)
    (hx1 : ∀ y ∈ x, y ≠ '|') (hx2 : x = [] ∨ ∃ c ∈ x, c.isDigit = false)
    (hr : ∀ y ∈ x ++ '|' :: m, y ≠ ':') :
    findAllStringSubmatch (b ++ ':' :: (x ++ '|' :: m)) = [] := by
  unfold findAllStringSubmatch
  induction b with
  | nil =>
    have h := matchHere_bad_value [] x m (fun y hy => absurd hy (List.not_mem_nil y)) hx1 hx2
    rw [List.nil_append] at h ⊢
    simp only [findAllFrom, h]
    exact findAllFrom_no_colon _ hr
  | cons a b ih =>
    have h := matchHere_bad_value (a :: b) x m hb2 hx1 hx2
    rw [List.cons_append] at h ⊢
    simp only [findAllFrom, h]
    exact ih (fun y hy => hb2 y (List.mem_cons_of_mem _ hy))

theorem handleMessage_bad_value (b x m : List Char) (hb2 : ∀ y ∈ b, isBucketChar y = true)
    (hx : ∀ y ∈ x, isAllowedChar y = true ∧ y ≠ ':' ∧ y ≠ '|')
    (hx2 : x = [] ∨ ∃ c ∈ x, c.isDigit = false) (hm : m = ['c'] ∨ m = ['m', 's']) :
    handleMessage (b ++ ':' :: (x ++ '|' :: m)) = [] := by
  have hmall : ∀ y ∈ m, isAllowedChar y = true ∧ y ≠ ':' := by
    rcases hm with h | h <;> subst h <;> decide
  have hs : sanitize (b ++ ':' :: (x ++ '|' :: m)) = b ++ ':' :: (x ++ '|' :: m) := by
    apply sanitize_of_allowed
    intro y hy
    simp only [List.mem_append, List.mem_cons] at hy
    rcases hy with h | h | h | h | h
    · exact isAllowed_of_isBucket (hb2 y h)
    · rw [h]; decide
    · exact (hx y h).1
    · rw [h]; decide
    · exact (hmall y h).1
  have hr : ∀ y ∈ x ++ '|' :: m, y ≠ ':' := by
    intro y hy
    simp only [List.mem_append, List.mem_cons] at hy
    rcases hy with h | h | h
    · exact (hx y h).2.1
    · rw [h]; decide
    · exact (hmall y h).2
  unfold handleMessage
  rw [hs, findAll_bad_value b x m hb2 (fun y hy => (hx y hy).2.2) hx2 hr]
  rfl

/-- C9, as stated, fails: `bad:xyz|c` and `bad:xyz|ms` do not match
`packetRegexp`, whose value group is `[0-9]+`, so no packet is sent. -/
theorem handleMessage_non_digit_value_dropped :
    handleMessage "bad:xyz|c".toList = [] ∧ handleMessage "bad:xyz|ms".toList = [] := by
  decide

/-- C9, amended: a value field made of digits that `strconv.Atoi` rejects
(its value is beyond the largest `int`) is defaulted, to 1 for modifier `c`
and to 0 for modifier `ms`, in exactly one packet; a value field made of
characters that the sanitizer keeps, with neither `:` nor `|`, that is
empty or has a character other than a digit (`xyz`, `1.5`, `12abc`) makes
the sample match nothing, so `bad:xyz|c` and `bad:xyz|ms` send no packet. -/
theorem handleMessage_value_default (b v : List Char) (hb : b ≠ [])
    (hb2 : ∀ c ∈ b, isBucketChar c = true) (hv : v ≠ []) (hv2 : ∀ c ∈ v, c.isDigit = true)
    (hv3 : maxInt < (digitsValue v : Int)) :
    handleMessage (b ++ ':' :: (v ++ '|' :: ['c'])) = [⟨String.mk b, 1, "c", ⟨f32One⟩⟩] ∧
    handleMessage (b ++ ':' :: (v ++ '|' :: ['m', 's'])) = [⟨String.mk b, 0, "ms", ⟨f32One⟩⟩] ∧
    (∀ x m : List Char, (∀ y ∈ x, isAllowedChar y = true ∧ y ≠ ':' ∧ y ≠ '|') →
      (x = [] ∨ ∃ c ∈ x, c.isDigit = false) → (m = ['c'] ∨ m = ['m', 's']) →
      handleMessage (b ++ ':' :: (x ++ '|' :: m)) = []) ∧
    handleMessage ("bad".toList ++ ':' :: ("xyz".toList ++ '|' :: ['c'])) = [] ∧
    handleMessage ("bad".toList ++ ':' :: ("xyz".toList ++ '|' :: ['m', 's'])) = [] ∧
    handleMessage ("bad".toList ++ ':' :: ("1.5".toList ++ '|' :: ['c'])) = [] ∧
    handleMessage ("bad".toList ++ ':' :: ("12abc".toList ++ '|' :: ['c'])) = [] := by
  have hp := packetOf_overflow b v [] hv hv2 hv3
  refine ⟨?_, ?_, fun x m hx hx2 hm => handleMessage_bad_value b x m hb2 hx hx2 hm,
    by decide, by decide, by decide, by decide⟩
  · rw [handleMessage_plain b v ['c'] hb hb2 hv hv2 (Or.inl rfl), hp.1, parseFloat32_nil]
    rfl
  · rw [handleMessage_plain b v ['m', 's'] hb hb2 hv hv2 (Or.inr rfl), hp.2, parseFloat32_nil]
    rfl

/-- Witness of `handleMessage_value_default`. -/
theorem handleMessage_value_default_witness :
    handleMessage ("big".toList ++ ':' :: ("9223372036854775808".toList ++ '|' :: ['c'])) =
      [⟨String.mk "big".toList, 1, "c", ⟨f32One⟩⟩] ∧
    handleMessage ("big".toList ++ ':' :: ("9223372036854775808".toList ++ '|' :: ['m', 's'])) =
      [⟨String.mk "big".toList, 0, "ms", ⟨f32One⟩⟩] ∧
    (∀ x m : List Char, (∀ y ∈ x, isAllowedChar y = true ∧ y ≠ ':' ∧ y ≠ '|') →
      (x = [] ∨ ∃ c ∈ x, c.isDigit = false) → (m = ['c'] ∨ m = ['m', 's']) →
      handleMessage ("big".toList ++ ':' :: (x ++ '|' :: m)) = []) :=
  ⟨(handleMessage_value_default "big".toList "9223372036854775808".toList (by decide)
      (by decide) (by decide) (by decide) (by decide)).1,
   (handleMessage_value_default "big".toList "9223372036854775808".toList (by decide)
      (by decide) (by decide) (by decide) (by decide)).2.1,
   (handleMessage_value_default "big".toList "9223372036854775808".toList (by decide)
      (by decide) (by decide) (by decide) (by decide)).2.2.1⟩

/-- C10, as stated, fails: `foo:-5|c` does not match `packetRegexp`, whose
value group `[0-9]+` has no sign, so no packet is sent. -/
theorem handleMessage_negative_value_dropped : handleMessage "foo:-5|c".toList = [] := by
  decide

/-- C10, amended: the value group of the grammar is an unsigned digit
string; for every bucket `b`, every digit string `v` and modifier `c` or
`ms`, the text `b:-v|m` matches nothing and no packet is sent. -/
theorem handleMessage_signed_value_no_match (b v m : List Char)
    (hb2 : ∀ c ∈ b, isBucketChar c = true) (hv2 : ∀ c ∈ v, c.isDigit = true)
    (hm : m = ['c'] ∨ m = ['m', 's']) :
    handleMessage (b ++ ':' :: '-' :: (v ++ '|' :: m)) = [] := by
  apply handleMessage_no_digit b v m '-' hb2 (by decide) _ hm
  intro y hy
  rcases List.mem_cons.1 hy with h | h
  · rw [h]; decide
  · have hd := hv2 y h
    refine ⟨isAllowed_of_isDigit hd, ?_⟩
    intro e; rw [e] at hd; exact absurd hd (by decide)

/-- Witness of `handleMessage_signed_value_no_match`. -/
theorem handleMessage_signed_value_no_match_witness :
    handleMessage ("foo".toList ++ ':' :: '-' :: ("12".toList ++ '|' :: ['m', 's'])) = [] :=
  handleMessage_signed_value_no_match "foo".toList "12".toList ['m', 's'] (by decide)
    (by decide) (Or.inr rfl)

/-! ## Flushes without data, and the frame of a packet -/

theorem flushCounters_zero (cfg : Config) (cs : List (String × Int)) (h : ∀ e ∈ cs, e.2 = 0) :
    flushCounters cfg cs = Except.ok ([], cs, 0) := by
  induction cs with
  | nil => rfl
  | cons e rest ih =>
    obtain ⟨s, c⟩ := e
    have hc : c = 0 := h (s, c) (List.mem_cons_self _ _)
    subst hc
    simp [flushCounters, ih (fun e he => h e (List.mem_cons_of_mem _ he)), Except.map]

theorem flushTimers_empty (cfg : Config) (ts : List (String × List Int))
    (h : ∀ e ∈ ts, e.2 = []) : flushTimers cfg ts = Except.ok ([], ts, 0) := by
  induction ts with
  | nil => rfl
  | cons e rest ih =>
    obtain ⟨u, t⟩ := e
    have ht : t = [] := h (u, t) (List.mem_cons_self _ _)
    subst ht
    simp [flushTimers, ih (fun e he => h e (List.mem_cons_of_mem _ he)), Except.map]

theorem flushCounters_filter (cfg : Config) (cs : List (String × Int)) :
    (flushCounters cfg cs).map (fun r => (r.1, r.2.2)) =
      (flushCounters cfg (cs.filter (fun e => e.2 ≠ 0))).map (fun r => (r.1, r.2.2)) := by
  induction cs with
  | nil => rfl
  | cons e rest ih =>
    obtain ⟨s, c⟩ := e
    by_cases hc : c = 0
    · subst hc
      rw [List.filter_cons_of_neg (by simp), ← ih]
      simp only [flushCounters, if_true]
      cases flushCounters cfg rest <;> rfl
    · rw [List.filter_cons_of_pos (by simp [hc])]
      simp only [flushCounters, if_neg hc]
      cases goDiv c (rateDivisor cfg) with
      | error f => rfl
      | ok value =>
        simp only [Except.bind]
        cases h1 : flushCounters cfg rest with
        | error f =>
          cases h2 : flushCounters cfg (rest.filter (fun e => e.2 ≠ 0)) with
          | error g => rw [h1, h2] at ih; exact ih
          | ok b => rw [h1, h2] at ih; cases ih
        | ok a =>
          cases h2 : flushCounters cfg (rest.filter (fun e => e.2 ≠ 0)) with
          | error g => rw [h1, h2] at ih; cases ih
          | ok b =>
            rw [h1, h2] at ih
            simp only [Except.map, Except.ok.injEq, Prod.mk.injEq] at ih ⊢
            simp [ih.1, ih.2]

/-- C11: in a state where every counter is 0 and every timer list is empty,
`submit` puts no line in the buffer, adds no `statsd.numStats` line, calls
no `Write`, and leaves the state as it is, whatever the flags and the
sinks; and in any state the entries of `counters` that hold 0 can be
removed without changing the buffer or what is written. -/
theorem submit_emits_nothing_without_data (cfg : Config) (env : Env)
    (cs : List (String × Int)) (ts : List (String × List Int)) :
    ((∀ e ∈ cs, e.2 = 0) → (∀ e ∈ ts, e.2 = []) →
      submit cfg env ⟨cs, ts⟩ = Except.ok ⟨⟨cs, ts⟩, [], none, none⟩) ∧
    (submit cfg env ⟨cs, ts⟩).map (fun r => (r.buffer, r.clientData, r.fileData)) =
      (submit cfg env ⟨cs.filter (fun e => e.2 ≠ 0), ts⟩).map
        (fun r => (r.buffer, r.clientData, r.fileData)) := by
  constructor
  · intro hc ht
    unfold submit
    simp only [flushCounters_zero cfg cs hc, flushTimers_empty cfg ts ht, Except.bind]
    cases env.openOk <;> simp
  · have hf := flushCounters_filter cfg cs
    unfold submit
    cases env.openOk
    · simp [Except.map]
    · simp only [if_true, Option.isSome, Bool.or_true]
      cases h1 : flushCounters cfg cs with
      | error f =>
        cases h2 : flushCounters cfg (cs.filter (fun e => e.2 ≠ 0)) with
        | error g => rw [h1, h2] at hf; simpa [Except.map, Except.bind] using hf
        | ok b => rw [h1, h2] at hf; cases hf
      | ok a =>
        cases h2 : flushCounters cfg (cs.filter (fun e => e.2 ≠ 0)) with
        | error g => rw [h1, h2] at hf; cases hf
        | ok b =>
          rw [h1, h2] at hf
          simp only [Except.map, Except.ok.injEq, Prod.mk.injEq] at hf
          simp only [Except.bind]
          cases flushTimers cfg ts with
          | error f => rfl
          | ok rt =>
            simp only [hf.1, hf.2]
            by_cases hn : b.2.2 + rt.2.2 = 0 <;> simp [hn, Except.map]

/-- Witness of `submit_emits_nothing_without_data`. -/
theorem submit_emits_nothing_without_data_witness :
    submit Config.default ⟨true, true, "T"⟩ ⟨[("foo", 0), ("bar", 0)], [("t", [])]⟩ =
      Except.ok ⟨⟨[("foo", 0), ("bar", 0)], [("t", [])]⟩, [], none, none⟩ :=
  (submit_emits_nothing_without_data Config.default ⟨true, true, "T"⟩
    [("foo", 0), ("bar", 0)] [("t", [])]).1 (by decide) (by decide)

theorem mapGet_mapSet_ne {α : Type} (k k' : String) (v : α) (m : List (String × α))
    (h : k' ≠ k) : mapGet k' (mapSet k v m) = mapGet k' m := by
  induction m with
  | nil => simp [mapSet, mapGet, Ne.symm h]
  | cons e rest ih =>
    obtain ⟨a, b⟩ := e
    by_cases ha : a = k
    · subst ha
      simp [mapSet, mapGet, Ne.symm h]
    · by_cases hb : a = k'
      · subst hb
        simp [mapSet, mapGet, h]
      · simp [mapSet, mapGet, ha, hb, ih]

theorem monitorPacket_timer (st : State) (s : Packet) (hm : s.Modifier = "ms") :
    monitorPacket st s =
      ⟨st.counters, mapSet s.Bucket ((mapGet s.Bucket st.timers).getD [] ++ [s.Value])
        (match mapGet s.Bucket st.timers with
          | some _ => st.timers
          | none => mapSet s.Bucket [] st.timers)⟩ := by
  unfold monitorPacket
  rw [if_pos hm]
  cases h : mapGet s.Bucket st.timers with
  | none => simp [mapGet_mapSet_self]
  | some c => simp [h]

set_option maxRecDepth 8000 in
/-- C15: a timer packet appends its value, as it is, at the end of
`timers[bucket]` (created empty when absent) and leaves `counters` and every
other timer list unchanged; a counter packet leaves `timers` and every other
counter unchanged. A bucket name used with both modifiers has one entry in
each map. -/
theorem monitorPacket_frame (st : State) (s : Packet) :
    (s.Modifier = "ms" →
      mapGet s.Bucket (monitorPacket st s).timers =
        some ((mapGet s.Bucket st.timers).getD [] ++ [s.Value]) ∧
      (monitorPacket st s).counters = st.counters ∧
      ∀ k, k ≠ s.Bucket → mapGet k (monitorPacket st s).timers = mapGet k st.timers) ∧
    (s.Modifier ≠ "ms" →
      (monitorPacket st s).timers = st.timers ∧
      ∀ k, k ≠ s.Bucket → mapGet k (monitorPacket st s).counters = mapGet k st.counters) ∧
    monitorPackets State.init [⟨"x", 5, "c", ⟨f32One⟩⟩, ⟨"x", 7, "ms", F32.pow2Neg 1⟩] =
      ⟨[("x", 5)], [("x", [7])]⟩ := by
  refine ⟨fun hm => ?_, fun hm => ?_, by decide⟩
  · rw [monitorPacket_timer st s hm]
    refine ⟨mapGet_mapSet_self _ _ _, rfl, fun k hk => ?_⟩
    simp only
    rw [mapGet_mapSet_ne _ _ _ _ hk]
    cases mapGet s.Bucket st.timers with
    | none => exact mapGet_mapSet_ne _ _ _ _ hk
    | some c => rfl
  · rw [monitorPacket_counter st s hm]
    refine ⟨rfl, fun k hk => ?_⟩
    simp only
    rw [mapGet_mapSet_ne _ _ _ _ hk]
    cases mapGet s.Bucket st.counters with
    | none => exact mapGet_mapSet_ne _ _ _ _ hk
    | some c => rfl

/-- Witness of `monitorPacket_frame`. -/
theorem monitorPacket_frame_witness :
    mapGet "t" (monitorPacket ⟨[("t", 4)], [("t", [1]), ("u", [2])]⟩
        ⟨"t", 9, "ms", F32.pow2Neg 3⟩).timers =
      some ((mapGet "t" ([("t", [1]), ("u", [2])] : List (String × List Int))).getD [] ++ [9]) ∧
    (monitorPacket ⟨[("t", 4)], [("t", [1]), ("u", [2])]⟩
        ⟨"t", 9, "ms", F32.pow2Neg 3⟩).counters = [("t", 4)] ∧
    ∀ k, k ≠ "t" →
      mapGet k (monitorPacket ⟨[("t", 4)], [("t", [1]), ("u", [2])]⟩
          ⟨"t", 9, "ms", F32.pow2Neg 3⟩).timers =
        mapGet k ([("t", [1]), ("u", [2])] : List (String × List Int)) :=
  (monitorPacket_frame ⟨[("t", 4)], [("t", [1]), ("u", [2])]⟩
    ⟨"t", 9, "ms", F32.pow2Neg 3⟩).1 rfl

/-- C18: with a percentile threshold of 0, inside the range 0..100, and a
timer list of two samples, `thresholdIndex` is 2, `numInThreshold` is 0,
not at least 1, and line 121 divides by zero: the reduction, and `submit`
with it, panics. -/
theorem reduceTimer_threshold_zero_divides_by_zero :
    thresholdIndex 0 2 = 2 ∧ numInThreshold 0 2 = 0 ∧
    reduceTimer 0 [1, 2] = Except.error Fault.divideByZero ∧
    submit ⟨"-", 10, 0⟩ ⟨false, true, "T"⟩ ⟨[], [("t", [1, 2])]⟩ =
      Except.error Fault.divideByZero := by
  decide

/-- C17: the second of two flushes that both produce output writes over the
bytes of the first. With `hits` = 20000000 in the first flush and `a` =
10000000 in the second, the file holds the 38 bytes of the second flush
followed by the last 6 bytes of the first, and not the 44 bytes of the
first followed by the second. -/
theorem submit_second_flush_overwrites_file :
    (submit Config.default ⟨false, true, "T"⟩ ⟨[("hits", 20000000)], []⟩).map
        (fun r1 => fileAfterSubmit "T" [] r1) =
      Except.ok "stats.hits 2 T\nstats_counts.hits 20000000 T\n".toList ∧
    (submit Config.default ⟨false, true, "T"⟩ ⟨[("a", 10000000)], []⟩).map
        (fun r2 => fileAfterSubmit "T" "stats.hits 2 T\nstats_counts.hits 20000000 T\n".toList r2) =
      Except.ok "stats.a 1 T\nstats_counts.a 10000000 T\n000 T\n".toList ∧
    "stats.a 1 T\nstats_counts.a 10000000 T\n000 T\n".toList ≠
      "stats.hits 2 T\nstats_counts.hits 20000000 T\n".toList ++
        "stats.a 1 T\nstats_counts.a 10000000 T\n".toList := by
  decide

/-! ## The mean and the number of lines -/

theorem sum_bounds (t : List Int) (lo hi : Int) (h1 : ∀ x ∈ t, lo ≤ x) (h2 : ∀ x ∈ t, x ≤ hi) :
    (t.length : Int) * lo ≤ t.sum ∧ t.sum ≤ (t.length : Int) * hi := by
  induction t with
  | nil => simp
  | cons a rest ih =>
    have ha1 := h1 a (List.mem_cons_self _ _)
    have ha2 := h2 a (List.mem_cons_self _ _)
    have ih2 := ih (fun x hx => h1 x (List.mem_cons_of_mem _ hx))
      (fun x hx => h2 x (List.mem_cons_of_mem _ hx))
    simp only [List.length_cons, List.sum_cons, Nat.cast_add, Nat.cast_one]
    constructor
    · nlinarith [ih2.1]
    · nlinarith [ih2.2]

theorem tdiv_between (s n lo hi : Int) (hn : 0 < n) (h1 : n * lo ≤ s) (h2 : s ≤ n * hi) :
    lo ≤ Int.tdiv s n ∧ Int.tdiv s n ≤ hi := by
  rcases Int.le_total 0 s with h | h
  · rw [Int.tdiv_eq_ediv h (Int.le_of_lt hn)]
    exact ⟨Int.le_ediv_of_mul_le hn (by rw [Int.mul_comm]; exact h1),
      Int.ediv_le_of_le_mul hn (by rw [Int.mul_comm]; exact h2)⟩
  · have e : Int.tdiv s n = -((-s) / n) := by
      have := Int.neg_tdiv (-s) n
      rw [Int.neg_neg] at this
      rw [this, Int.tdiv_eq_ediv (by omega) (Int.le_of_lt hn)]
    have a1 : (-s) / n ≤ -lo :=
      Int.ediv_le_of_le_mul hn (by nlinarith)
    have a2 : -hi ≤ (-s) / n :=
      Int.le_ediv_of_mul_le hn (by nlinarith)
    rw [e]
    constructor <;> omega

/-- C19: for a non-empty timer list whose sum fits an `int` and a threshold
strictly between 0 and 100, the lines that `submit` writes for the bucket
satisfy lower ≤ mean ≤ upper, the mean being the sum divided by the count
with truncation toward zero. Stated for a flush that runs: file opened,
flush interval of 1 to 9223372036 seconds. -/
theorem submit_timer_mean_between_lower_upper (cfg : Config) (env : Env) (st : State)
    (hopen : env.openOk = true) (h1 : 1 ≤ cfg.flushInterval)
    (h2 : cfg.flushInterval ≤ 9223372036) (h3 : 0 < cfg.percentThreshold)
    (h4 : cfg.percentThreshold < 100)
    (hv : ∀ e ∈ st.timers, (e.2.length : Int) ≤ maxInt)
    (u : String) (t : List Int) (hmem : (u, t) ∈ st.timers) (hne : t ≠ [])
    (hs1 : minInt ≤ t.sum) (hs2 : t.sum ≤ maxInt) :
    ∃ res data mean lo hi, submit cfg env st = Except.ok res ∧ res.fileData = some data ∧
      (⟨"stats.timers." ++ u ++ ".mean", mean⟩ : Line) ∈ data ∧
      (⟨"stats.timers." ++ u ++ ".upper", hi⟩ : Line) ∈ data ∧
      (⟨"stats.timers." ++ u ++ ".lower", lo⟩ : Line) ∈ data ∧
      lo ≤ mean ∧ mean ≤ hi ∧ mean = Int.tdiv t.sum t.length := by
  have h5 : cfg.percentThreshold < 200 := by omega
  obtain ⟨res, data, r, hs, hd, hr, hl⟩ :=
    submit_timer_lines cfg env st hopen h1 h2 h3 h5 hv u t hmem hne
  obtain ⟨r2, hr2, hlo, hlo2, hhi, hhi2, -, -, hmany, hone⟩ :=
    reduceTimer_spec cfg.percentThreshold t hne (hv (u, t) hmem) h3 h5
  rw [hr] at hr2
  cases hr2
  have hpos : 0 < t.length := List.length_pos.2 hne
  have hmean : r.mean = Int.tdiv t.sum t.length := by
    by_cases hlen : 1 < t.length
    · rw [hmany hlen, wrapInt_of_range hs1 hs2]
    · have hl1 : t.length = 1 := by omega
      rw [hone hl1]
      obtain ⟨x, hx⟩ := List.length_eq_one.1 hl1
      subst hx
      have hx : r.lower = x := by simpa using hlo
      rw [hx]
      simp
  have hb := sum_bounds t r.lower r.upper hlo2 hhi2
  have hbt := tdiv_between t.sum t.length r.lower r.upper (by omega) hb.1 hb.2
  refine ⟨res, data, r.mean, r.lower, r.upper, hs, hd, hl _ (by simp [timerLines]),
    hl _ (by simp [timerLines]), hl _ (by simp [timerLines]), ?_, ?_, hmean⟩
  · rw [hmean]; exact hbt.1
  · rw [hmean]; exact hbt.2

/-- Witness of `submit_timer_mean_between_lower_upper`. -/
theorem submit_timer_mean_between_lower_upper_witness :
    ∃ res data mean lo hi,
      submit Config.default ⟨false, true, "T"⟩ ⟨[], [("t", [-7, 2, -2])]⟩ = Except.ok res ∧
      res.fileData = some data ∧
      (⟨"stats.timers." ++ "t" ++ ".mean", mean⟩ : Line) ∈ data ∧
      (⟨"stats.timers." ++ "t" ++ ".upper", hi⟩ : Line) ∈ data ∧
      (⟨"stats.timers." ++ "t" ++ ".lower", lo⟩ : Line) ∈ data ∧
      lo ≤ mean ∧ mean ≤ hi ∧
      mean = Int.tdiv ([-7, 2, -2] : List Int).sum ([-7, 2, -2] : List Int).length :=
  submit_timer_mean_between_lower_upper Config.default ⟨false, true, "T"⟩
    ⟨[], [("t", [-7, 2, -2])]⟩ rfl (by decide) (by decide) (by decide) (by decide) (by decide)
    "t" [-7, 2, -2] (by decide) (by decide) (by decide) (by decide)

theorem flushCounters_lines (cfg : Config) (hd : rateDivisor cfg ≠ 0) (cs : List (String × Int)) :
    flushCounters cfg cs = Except.ok (cs.flatMap (counterLines cfg),
      cs.map (fun e => (e.1, 0)), (cs.filter (fun e => e.2 ≠ 0)).length) := by
  induction cs with
  | nil => rfl
  | cons e rest ih =>
    obtain ⟨s, c⟩ := e
    by_cases hc : c = 0
    · subst hc
      simp [flushCounters, ih, Except.map, counterLines]
    · simp [flushCounters, hc, ih, goDiv, hd, Except.map, Except.bind, counterLines]

theorem flushTimers_lines (cfg : Config) (h1 : 0 < cfg.percentThreshold)
    (h2 : cfg.percentThreshold < 200) (ts : List (String × List Int))
    (hv : ∀ e ∈ ts, (e.2.length : Int) ≤ maxInt) :
    flushTimers cfg ts = Except.ok (ts.flatMap (timerEntryLines cfg),
      ts.map (fun e => (e.1, [])), (ts.filter (fun e => e.2 ≠ [])).length) := by
  induction ts with
  | nil => rfl
  | cons e rest ih =>
    obtain ⟨u, t⟩ := e
    have ih2 := ih (fun e he => hv e (List.mem_cons_of_mem _ he))
    by_cases ht : t = []
    · subst ht
      simp [flushTimers, ih2, Except.map, timerEntryLines]
    · obtain ⟨r, hred, -⟩ := reduceTimer_spec cfg.percentThreshold t ht
        (hv (u, t) (List.mem_cons_self _ _)) h1 h2
      have hpos : 0 < t.length := List.length_pos.2 ht
      simp [flushTimers, hpos, hred, ih2, Except.map, Except.bind, timerEntryLines,
        timerStatsOf, ht]

theorem length_flatMap_counterLines (cfg : Config) (cs : List (String × Int)) :
    (cs.flatMap (counterLines cfg)).length = 2 * (cs.filter (fun e => e.2 ≠ 0)).length := by
  induction cs with
  | nil => rfl
  | cons e rest ih =>
    by_cases hc : e.2 = 0
    · simp [List.flatMap_cons, counterLines, hc, ih]
    · simp [List.flatMap_cons, counterLines, hc, ih]
      omega

theorem length_flatMap_timerEntryLines (cfg : Config) (ts : List (String × List Int)) :
    (ts.flatMap (timerEntryLines cfg)).length = 5 * (ts.filter (fun e => e.2 ≠ [])).length := by
  induction ts with
  | nil => rfl
  | cons e rest ih =>
    by_cases ht : e.2 = []
    · simp [List.flatMap_cons, timerEntryLines, ht, ih]
    · simp [List.flatMap_cons, timerEntryLines, timerLines, ht, ih]
      omega

/-- C20: in a flush that produces output, the buffer is the lines of the
counter buckets, then the lines of the timer buckets, then the line
`statsd.numStats`, whose value is the number of entries of `counters` other
than 0 plus the number of non-empty entries of `timers`; each such counter
entry gives exactly its two lines and each such timer entry exactly its
five lines. The bucket lines are what the file receives. Stated for a flush
that runs to its end: file opened, flush interval of 1 to 9223372036
seconds, threshold of 1 to 199. -/
theorem submit_numStats_and_line_counts (cfg : Config) (env : Env) (st : State)
    (hopen : env.openOk = true) (h1 : 1 ≤ cfg.flushInterval)
    (h2 : cfg.flushInterval ≤ 9223372036) (h3 : 0 < cfg.percentThreshold)
    (h4 : cfg.percentThreshold < 200)
    (hv : ∀ e ∈ st.timers, (e.2.length : Int) ≤ maxInt)
    (hout : 0 < (st.counters.filter (fun e => e.2 ≠ 0)).length +
      (st.timers.filter (fun e => e.2 ≠ [])).length) :
    ∃ res, submit cfg env st = Except.ok res ∧
      res.buffer = st.counters.flatMap (counterLines cfg) ++
        st.timers.flatMap (timerEntryLines cfg) ++
        [⟨"statsd.numStats", (((st.counters.filter (fun e => e.2 ≠ 0)).length +
          (st.timers.filter (fun e => e.2 ≠ [])).length : Nat) : Int)⟩] ∧
      res.fileData = some (st.counters.flatMap (counterLines cfg) ++
        st.timers.flatMap (timerEntryLines cfg)) ∧
      (st.counters.flatMap (counterLines cfg)).length =
        2 * (st.counters.filter (fun e => e.2 ≠ 0)).length ∧
      (st.timers.flatMap (timerEntryLines cfg)).length =
        5 * (st.timers.filter (fun e => e.2 ≠ [])).length ∧
      (∀ e ∈ st.counters, e.2 ≠ 0 → counterLines cfg e =
        [⟨"stats." ++ e.1, wrapInt (Int.tdiv e.2 (rateDivisor cfg))⟩,
          ⟨"stats_counts." ++ e.1, e.2⟩]) ∧
      (∀ e ∈ st.timers, e.2 ≠ [] → ∃ r, reduceTimer cfg.percentThreshold e.2 = Except.ok r ∧
        timerEntryLines cfg e = timerLines cfg.percentThreshold e.1 r ∧
        (timerLines cfg.percentThreshold e.1 r).length = 5) := by
  have hc := flushCounters_lines cfg (rateDivisor_ne_zero cfg h1 h2) st.counters
  have ht := flushTimers_lines cfg h3 h4 st.timers hv
  have hn : ¬ ((st.counters.filter (fun e => e.2 ≠ 0)).length +
      (st.timers.filter (fun e => e.2 ≠ [])).length = 0) := by omega
  have hs : submit cfg env st = Except.ok
      ⟨⟨st.counters.map (fun e => (e.1, 0)), st.timers.map (fun e => (e.1, []))⟩,
        st.counters.flatMap (counterLines cfg) ++ st.timers.flatMap (timerEntryLines cfg) ++
          [⟨"statsd.numStats", (((st.counters.filter (fun e => e.2 ≠ 0)).length +
            (st.timers.filter (fun e => e.2 ≠ [])).length : Nat) : Int)⟩],
        none,
        some (st.counters.flatMap (counterLines cfg) ++
          st.timers.flatMap (timerEntryLines cfg))⟩ := by
    unfold submit
    simp only [hopen, hc, ht, Except.bind, if_true, Option.isSome, Bool.or_true, Bool.false_or,
      if_neg hn]
    rfl
  refine ⟨_, hs, rfl, rfl, length_flatMap_counterLines cfg _,
    length_flatMap_timerEntryLines cfg _, ?_, ?_⟩
  · intro e _ he
    simp [counterLines, he]
  · intro e hmem he
    obtain ⟨r, hred, -⟩ := reduceTimer_spec cfg.percentThreshold e.2 he (hv e hmem) h3 h4
    exact ⟨r, hred, by simp [timerEntryLines, he, timerStatsOf, hred], rfl⟩

/-- Witness of `submit_numStats_and_line_counts`. -/
theorem submit_numStats_and_line_counts_witness :
    ∃ res, submit Config.default ⟨false, true, "T"⟩
        ⟨[("a", 0), ("b", 30000000)], [("t", [3, 1]), ("u", [])]⟩ = Except.ok res ∧
      res.buffer = [("a", (0 : Int)), ("b", 30000000)].flatMap (counterLines Config.default) ++
        [("t", ([3, 1] : List Int)), ("u", [])].flatMap (timerEntryLines Config.default) ++
        [⟨"statsd.numStats", ((([("a", (0 : Int)), ("b", 30000000)].filter
            (fun e => e.2 ≠ 0)).length +
          ([("t", ([3, 1] : List Int)), ("u", [])].filter (fun e => e.2 ≠ [])).length : Nat) :
            Int)⟩] :=
  (submit_numStats_and_line_counts Config.default ⟨false, true, "T"⟩
    ⟨[("a", 0), ("b", 30000000)], [("t", [3, 1]), ("u", [])]⟩ rfl (by decide) (by decide)
    (by decide) (by decide) (by decide) (by decide)).imp (fun _ h => ⟨h.1, h.2.1⟩)

/-! ## The packets that `handleMessage` can send -/

theorem matchModifier_some (s m rest : List Char) (h : matchModifier s = some (m, rest)) :
    m = ['c'] ∨ m = ['m', 's'] := by
  unfold matchModifier at h
  split at h
  · simp only [Option.some.injEq, Prod.mk.injEq] at h; exact Or.inl h.1.symm
  · simp only [Option.some.injEq, Prod.mk.injEq] at h; exact Or.inr h.1.symm
  · cases h

theorem matchHere_some (s : List Char) (m : Submatch) (n : Nat)
    (h : matchHere s = some (m, n)) :
    m.bucket ≠ [] ∧ (m.modifier = ['c'] ∨ m.modifier = ['m', 's']) := by
  unfold matchHere at h
  simp only at h
  split_ifs at h with hb
  split at h
  · split_ifs at h with hv
    split at h
    · split at h
      · rename_i mm s3 hmod
        simp only [Option.some.injEq, Prod.mk.injEq] at h
        rw [← h.1]
        exact ⟨hb, matchModifier_some _ _ _ hmod⟩
      · cases h
    · cases h
  · cases h

theorem findAllFrom_mem (s : List Char) :
    ∀ (k : Nat) (m : Submatch), m ∈ findAllFrom k s → ∃ t n, matchHere t = some (m, n) := by
  induction s with
  | nil => intro k m h; cases k <;> simp [findAllFrom] at h
  | cons c cs ih =>
    intro k m h
    cases k with
    | succ k => simp only [findAllFrom] at h; exact ih k m h
    | zero =>
      simp only [findAllFrom] at h
      cases hm : matchHere (c :: cs) with
      | none => rw [hm] at h; exact ih 0 m h
      | some r =>
        obtain ⟨m0, len⟩ := r
        rw [hm] at h
        rcases List.mem_cons.1 h with e | e
        · exact ⟨c :: cs, len, by rw [hm, e]⟩
        · exact ih _ m e

theorem f32Round_natCast (n d : Nat) (q : F32) (h : f32Round (n : Int) d = some q) :
    0 ≤ q.units ∧ q.units < (f32Limit : Int) := by
  unfold f32Round at h
  rw [Int.natAbs_ofNat] at h
  have hneg : ¬ ((n : Int) < 0) := by omega
  simp only [hneg, if_false] at h
  unfold f32RoundMag at h
  simp only at h
  split_ifs at h with h1 h2
  · cases h
  · simp only [Option.map_some', Option.some.injEq] at h
    rw [← h]
    exact ⟨Int.ofNat_nonneg _, Int.ofNat_lt.2 h2⟩
  · cases h

theorem parseFloat32_some (r : List Char) (q : F32) (h : parseFloat32 r = some q) :
    0 ≤ q.units ∧ q.units < (f32Limit : Int) := by
  unfold parseFloat32 at h
  cases hd : List.dropWhile Char.isDigit r with
  | nil =>
    simp only [hd] at h
    split_ifs at h
    exact f32Round_natCast _ _ q h
  | cons c fp =>
    by_cases hc : c = '.'
    · subst hc
      simp only [hd] at h
      split_ifs at h
      exact f32Round_natCast _ _ q h
    · simp only [hd] at h
      split at h
      · rename_i heq; cases heq
      · rename_i heq
        simp only [List.cons.injEq] at heq
        exact absurd heq.1 hc
      · cases h

theorem packetOf_sampling (item : Submatch) :
    0 ≤ (packetOf item).Sampling.units ∧ (packetOf item).Sampling.units < (f32Limit : Int) := by
  unfold packetOf
  simp only
  cases h : parseFloat32 item.rate with
  | none => simp only; decide
  | some q => exact parseFloat32_some _ q h

set_option maxRecDepth 8000 in
/-- C14, as stated, fails: the rate group `[0-9\.]+` takes any digits, and
nothing checks the range: `foo:1|c|@5` gives a packet of sampling rate 5,
above 1, and `foo:1|c|@0` a packet of sampling rate 0. -/
theorem handleMessage_rate_outside_unit_interval :
    handleMessage "foo:1|c|@5".toList = [⟨"foo", 1, "c", ⟨5 * f32One⟩⟩] ∧
    handleMessage "foo:1|c|@0".toList = [⟨"foo", 1, "c", ⟨0⟩⟩] ∧
    (⟨5 * f32One⟩ : F32).toRat = 5 ∧ (⟨0⟩ : F32).toRat = 0 := by
  refine ⟨by decide, by decide, ?_, ?_⟩
  · norm_num [F32.toRat, f32One]
  · norm_num [F32.toRat]

/-- C14, amended: every packet that `handleMessage` sends, for every input,
has a non-empty bucket, a modifier that is `c` or `ms`, and a sampling rate
that is a finite `float32` not below 0: the digits after `@` rounded to
`float32`, whatever their size, and 1.0 when the rate is absent or
`strconv.ParseFloat` rejects it. -/
theorem handleMessage_packet_invariant (buf : List Char) (p : Packet)
    (hp : p ∈ handleMessage buf) :
    p.Bucket ≠ "" ∧ (p.Modifier = "c" ∨ p.Modifier = "ms") ∧
    0 ≤ p.Sampling.units ∧ p.Sampling.units < (f32Limit : Int) ∧
    (∀ item : Submatch, parseFloat32 item.rate = none → (packetOf item).Sampling = ⟨f32One⟩) ∧
    parseFloat32 [] = none := by
  unfold handleMessage findAllStringSubmatch at hp
  obtain ⟨item, hitem, rfl⟩ := List.mem_map.1 hp
  obtain ⟨t, n, hm⟩ := findAllFrom_mem _ 0 item hitem
  obtain ⟨hb, hmod⟩ := matchHere_some t item n hm
  have hs := packetOf_sampling item
  refine ⟨?_, ?_, hs.1, hs.2, ?_, parseFloat32_nil⟩
  · intro h
    have : (String.mk item.bucket).data = ("" : String).data := by
      rw [show (packetOf item).Bucket = String.mk item.bucket from rfl] at h; rw [h]
    exact hb this
  · rcases hmod with h | h
    · left; show String.mk item.modifier = "c"; rw [h]
    · right; show String.mk item.modifier = "ms"; rw [h]
  · intro it hnone
    unfold packetOf
    simp only [hnone]

set_option maxRecDepth 8000 in
/-- Witness of `handleMessage_packet_invariant`. -/
theorem handleMessage_packet_invariant_witness :
    (⟨"foo", 5, "ms", ⟨13421773 * 2 ^ 122⟩⟩ : Packet).Bucket ≠ "" ∧
    ((⟨"foo", 5, "ms", ⟨13421773 * 2 ^ 122⟩⟩ : Packet).Modifier = "c" ∨
      (⟨"foo", 5, "ms", ⟨13421773 * 2 ^ 122⟩⟩ : Packet).Modifier = "ms") ∧
    0 ≤ (⟨"foo", 5, "ms", ⟨13421773 * 2 ^ 122⟩⟩ : Packet).Sampling.units ∧
    (⟨"foo", 5, "ms", ⟨13421773 * 2 ^ 122⟩⟩ : Packet).Sampling.units < (f32Limit : Int) ∧
    (∀ item : Submatch, parseFloat32 item.rate = none → (packetOf item).Sampling = ⟨f32One⟩) ∧
    parseFloat32 [] = none :=
  handleMessage_packet_invariant "foo:5|ms|@0.1".toList ⟨"foo", 5, "ms", ⟨13421773 * 2 ^ 122⟩⟩
    (by decide)

/-! ## Packets in another order -/

theorem mapGet_mapUpdate {α : Type} (d : α) (f : α → α) (k k' : String)
    (m : List (String × α)) :
    mapGet k' (mapUpdate d f k m) =
      if k' = k then some (f ((mapGet k m).getD d)) else mapGet k' m := by
  unfold mapUpdate
  by_cases h : k' = k
  · subst h
    rw [if_pos rfl, mapGet_mapSet_self]
  · rw [if_neg h, mapGet_mapSet_ne _ _ _ _ h]
    cases mapGet k m with
    | none => exact mapGet_mapSet_ne _ _ _ _ h
    | some c => rfl

theorem monitorPacket_eq (st : State) (s : Packet) :
    monitorPacket st s =
      if s.Modifier = "ms" then
        ⟨st.counters, mapUpdate [] (fun c => c ++ [s.Value]) s.Bucket st.timers⟩
      else
        ⟨mapUpdate 0 (fun c => wrapInt (c + counterDelta s)) s.Bucket st.counters,
          st.timers⟩ := by
  by_cases hm : s.Modifier = "ms"
  · rw [if_pos hm, monitorPacket_timer st s hm]
    unfold mapUpdate
    cases mapGet s.Bucket st.timers <;> rfl
  · rw [if_neg hm, monitorPacket_counter st s hm]
    unfold mapUpdate counterDelta
    cases mapGet s.Bucket st.counters <;> rfl

theorem wrapInt_add_comm3 (c x y : Int) :
    wrapInt (wrapInt (c + x) + y) = wrapInt (wrapInt (c + y) + x) := by
  unfold wrapInt; omega

theorem monitorPacket_congr (a b : State) (p : Packet)
    (hc : ∀ k, mapGet k a.counters = mapGet k b.counters)
    (ht : ∀ k, ((mapGet k a.timers).getD []).Perm ((mapGet k b.timers).getD [])) :
    (∀ k, mapGet k (monitorPacket a p).counters = mapGet k (monitorPacket b p).counters) ∧
    (∀ k, ((mapGet k (monitorPacket a p).timers).getD []).Perm
      ((mapGet k (monitorPacket b p).timers).getD [])) := by
  rw [monitorPacket_eq a p, monitorPacket_eq b p]
  by_cases hm : p.Modifier = "ms"
  · simp only [if_pos hm]
    refine ⟨hc, fun k => ?_⟩
    rw [mapGet_mapUpdate, mapGet_mapUpdate]
    by_cases hk : k = p.Bucket
    · simp only [if_pos hk, Option.getD_some]
      exact (ht p.Bucket).append_right _
    · simp only [if_neg hk]
      exact ht k
  · simp only [if_neg hm]
    refine ⟨fun k => ?_, ht⟩
    rw [mapGet_mapUpdate, mapGet_mapUpdate, hc p.Bucket, hc k]

theorem monitorPacket_swap (a : State) (p q : Packet) :
    (∀ k, mapGet k (monitorPacket (monitorPacket a p) q).counters =
      mapGet k (monitorPacket (monitorPacket a q) p).counters) ∧
    (∀ k, ((mapGet k (monitorPacket (monitorPacket a p) q).timers).getD []).Perm
      ((mapGet k (monitorPacket (monitorPacket a q) p).timers).getD [])) := by
  simp only [monitorPacket_eq]
  by_cases hp : p.Modifier = "ms" <;> by_cases hq : q.Modifier = "ms"
  · simp only [if_pos hp, if_pos hq]
    refine ⟨by simp, fun k => ?_⟩
    simp only [mapGet_mapUpdate]
    by_cases h1 : k = q.Bucket <;> by_cases h2 : k = p.Bucket
    · have h3 : q.Bucket = p.Bucket := by rw [← h1, h2]
      simp only [h1, h3, if_true, Option.getD_some, List.append_assoc]
      exact List.Perm.append_left _ (List.Perm.swap _ _ _)
    · have h3 : ¬ (q.Bucket = p.Bucket) := by rw [← h1]; exact h2
      have h4 : ¬ (p.Bucket = q.Bucket) := fun e => h3 e.symm
      simp [h1, h3, h4]
    · have h3 : ¬ (p.Bucket = q.Bucket) := by rw [← h2]; exact h1
      have h4 : ¬ (q.Bucket = p.Bucket) := fun e => h3 e.symm
      simp [h2, h3, h4]
    · simp [h1, h2]
  · simp only [if_pos hp, if_neg hq]
    exact ⟨by simp, fun _ => List.Perm.refl _⟩
  · simp only [if_neg hp, if_pos hq]
    exact ⟨by simp, fun _ => List.Perm.refl _⟩
  · simp only [if_neg hp, if_neg hq]
    refine ⟨fun k => ?_, fun _ => List.Perm.refl _⟩
    simp only [mapGet_mapUpdate]
    by_cases h1 : k = q.Bucket <;> by_cases h2 : k = p.Bucket
    · have h3 : q.Bucket = p.Bucket := by rw [← h1, h2]
      simp only [h1, h3, if_true, Option.getD_some]
      rw [wrapInt_add_comm3]
    · have h3 : ¬ (q.Bucket = p.Bucket) := by rw [← h1]; exact h2
      have h4 : ¬ (p.Bucket = q.Bucket) := fun e => h3 e.symm
      simp [h1, h3, h4]
    · have h3 : ¬ (p.Bucket = q.Bucket) := by rw [← h2]; exact h1
      have h4 : ¬ (q.Bucket = p.Bucket) := fun e => h3 e.symm
      simp [h2, h3, h4]
    · simp [h1, h2]

theorem monitorPackets_congr (l : List Packet) :
    ∀ a b : State, (∀ k, mapGet k a.counters = mapGet k b.counters) →
      (∀ k, ((mapGet k a.timers).getD []).Perm ((mapGet k b.timers).getD [])) →
      (∀ k, mapGet k (monitorPackets a l).counters = mapGet k (monitorPackets b l).counters) ∧
      (∀ k, ((mapGet k (monitorPackets a l).timers).getD []).Perm
        ((mapGet k (monitorPackets b l).timers).getD [])) := by
  induction l with
  | nil => intro a b hc ht; exact ⟨hc, ht⟩
  | cons r l ih =>
    intro a b hc ht
    have h := monitorPacket_congr a b r hc ht
    exact ih _ _ h.1 h.2

theorem monitorPackets_perm (P P' : List Packet) (hperm : P.Perm P') :
    ∀ a b : State, (∀ k, mapGet k a.counters = mapGet k b.counters) →
      (∀ k, ((mapGet k a.timers).getD []).Perm ((mapGet k b.timers).getD [])) →
      (∀ k, mapGet k (monitorPackets a P).counters = mapGet k (monitorPackets b P').counters) ∧
      (∀ k, ((mapGet k (monitorPackets a P).timers).getD []).Perm
        ((mapGet k (monitorPackets b P').timers).getD [])) := by
  induction hperm with
  | nil => intro a b hc ht; exact ⟨hc, ht⟩
  | cons p _ ih =>
    intro a b hc ht
    have h := monitorPacket_congr a b p hc ht
    exact ih _ _ h.1 h.2
  | swap p q l =>
    intro a b hc ht
    have h1 := monitorPacket_congr a b q hc ht
    have h2 := monitorPacket_congr _ _ p h1.1 h1.2
    have h3 := monitorPacket_swap b q p
    exact monitorPackets_congr l _ _ (fun k => (h2.1 k).trans (h3.1 k))
      (fun k => (h2.2 k).trans (h3.2 k))
  | trans _ _ ih1 ih2 =>
    intro a b hc ht
    have h1 := ih1 a b hc ht
    have h2 := ih2 b b (fun _ => rfl) (fun _ => List.Perm.refl _)
    exact ⟨fun k => (h1.1 k).trans (h2.1 k), fun k => (h1.2 k).trans (h2.2 k)⟩

theorem reduceTimer_perm (p : Int) (t t' : List Int) (h : t.Perm t') :
    reduceTimer p t = reduceTimer p t' := by
  have hs : t.insertionSort (· ≤ ·) = t'.insertionSort (· ≤ ·) :=
    List.eq_of_perm_of_sorted
      (((List.perm_insertionSort _ t).trans h).trans (List.perm_insertionSort _ t').symm)
      (List.sorted_insertionSort _ t) (List.sorted_insertionSort _ t')
  unfold reduceTimer
  rw [hs]

theorem sum_mapSet (k : String) (v : Int) (m : List (String × Int)) :
    ((mapSet k v m).map Prod.snd).sum = (m.map Prod.snd).sum - (mapGet k m).getD 0 + v := by
  induction m with
  | nil => simp [mapSet, mapGet]
  | cons e rest ih =>
    obtain ⟨a, b⟩ := e
    by_cases h : a = k
    · simp only [mapSet, mapGet, h, if_true, List.map_cons, List.sum_cons, Option.getD_some]
      omega
    · simp only [mapSet, mapGet, h, if_false, List.map_cons, List.sum_cons, ih]
      omega

theorem sum_mapUpdate (f : Int → Int) (k : String) (m : List (String × Int)) :
    ((mapUpdate 0 f k m).map Prod.snd).sum =
      (m.map Prod.snd).sum - (mapGet k m).getD 0 + f ((mapGet k m).getD 0) := by
  unfold mapUpdate
  cases h : mapGet k m with
  | none =>
    simp only [Option.getD_none]
    rw [sum_mapSet, mapGet_mapSet_self, sum_mapSet, h]
    simp
  | some c =>
    simp only [Option.getD_some]
    rw [sum_mapSet, h]
    simp

theorem mem_mapSet {α : Type} (k : String) (v : α) (m : List (String × α)) (e : String × α)
    (h : e ∈ mapSet k v m) : e = (k, v) ∨ e ∈ m := by
  induction m with
  | nil => simp [mapSet] at h; exact Or.inl h
  | cons x rest ih =>
    obtain ⟨a, b⟩ := x
    by_cases ha : a = k
    · simp only [mapSet, ha, if_true, List.mem_cons] at h
      rcases h with h | h
      · exact Or.inl h
      · exact Or.inr (List.mem_cons_of_mem _ h)
    · simp only [mapSet, ha, if_false, List.mem_cons] at h
      rcases h with h | h
      · exact Or.inr (by rw [h]; exact List.mem_cons_self _ _)
      · rcases ih h with h2 | h2
        · exact Or.inl h2
        · exact Or.inr (List.mem_cons_of_mem _ h2)

theorem mem_mapUpdate {α : Type} (d : α) (f : α → α) (k : String) (m : List (String × α))
    (e : String × α) (h : e ∈ mapUpdate d f k m) :
    e = (k, f ((mapGet k m).getD d)) ∨ e = (k, d) ∨ e ∈ m := by
  unfold mapUpdate at h
  rcases mem_mapSet _ _ _ _ h with h1 | h1
  · exact Or.inl h1
  · cases hg : mapGet k m with
    | none =>
      rw [hg] at h1
      rcases mem_mapSet _ _ _ _ h1 with h2 | h2
      · exact Or.inr (Or.inl h2)
      · exact Or.inr (Or.inr h2)
    | some c =>
      rw [hg] at h1
      exact Or.inr (Or.inr h1)

theorem mapGet_mem {α : Type} (k : String) (v : α) (m : List (String × α))
    (h : mapGet k m = some v) : (k, v) ∈ m := by
  induction m with
  | nil => simp [mapGet] at h
  | cons x rest ih =>
    obtain ⟨a, b⟩ := x
    by_cases ha : a = k
    · simp only [mapGet, ha, if_true, Option.some.injEq] at h
      rw [ha, h]; exact List.mem_cons_self _ _
    · simp only [mapGet, ha, if_false] at h
      exact List.mem_cons_of_mem _ (ih h)

theorem mapGet_le_sum (k : String) (m : List (String × Int)) (h : ∀ e ∈ m, 0 ≤ e.2) :
    0 ≤ (mapGet k m).getD 0 ∧ (mapGet k m).getD 0 ≤ (m.map Prod.snd).sum := by
  induction m with
  | nil => simp [mapGet]
  | cons e rest ih =>
    obtain ⟨a, b⟩ := e
    have hb : 0 ≤ b := h (a, b) (List.mem_cons_self _ _)
    have ih2 := ih (fun e he => h e (List.mem_cons_of_mem _ he))
    by_cases ha : a = k
    · simp only [mapGet, ha, if_true, Option.getD_some, List.map_cons, List.sum_cons]
      omega
    · simp only [mapGet, ha, if_false, List.map_cons, List.sum_cons]
      omega

set_option maxRecDepth 8000 in
theorem counterDelta_one (s : Packet) (hv : s.Value = 1) (hs : s.Sampling = ⟨f32One⟩) :
    counterDelta s = 1 := by
  unfold counterDelta
  rw [hv, hs]
  decide

theorem countersTotal_count (Q : List Packet) :
    ∀ s0 : State, (∀ p ∈ Q, p.Modifier ≠ "ms" ∧ p.Value = 1 ∧ p.Sampling = ⟨f32One⟩) →
      (∀ e ∈ s0.counters, 0 ≤ e.2) → countersTotal s0 + Q.length ≤ maxInt →
      countersTotal (monitorPackets s0 Q) = countersTotal s0 + Q.length := by
  induction Q with
  | nil => intro s0 _ _ _; simp [monitorPackets]
  | cons p rest ih =>
    intro s0 hQ hnn hmax
    obtain ⟨hm, hv, hs⟩ := hQ p (List.mem_cons_self _ _)
    have hcur := mapGet_le_sum p.Bucket s0.counters hnn
    have hlen : ((p :: rest).length : Int) = rest.length + 1 := by simp
    rw [hlen] at hmax ⊢
    unfold countersTotal at hmax
    have hw : wrapInt ((mapGet p.Bucket s0.counters).getD 0 + 1) =
        (mapGet p.Bucket s0.counters).getD 0 + 1 :=
      wrapInt_of_range (by unfold minInt; omega) (by unfold maxInt at hmax ⊢; omega)
    have hstep : monitorPacket s0 p =
        ⟨mapUpdate 0 (fun c => wrapInt (c + 1)) p.Bucket s0.counters, s0.timers⟩ := by
      rw [monitorPacket_eq, if_neg hm, counterDelta_one p hv hs]
    have htot : countersTotal (monitorPacket s0 p) = countersTotal s0 + 1 := by
      unfold countersTotal
      rw [hstep]
      simp only
      rw [sum_mapUpdate, hw]
      omega
    have hnn2 : ∀ e ∈ (monitorPacket s0 p).counters, 0 ≤ e.2 := by
      intro e he
      rw [hstep] at he
      have he2 : e ∈ mapUpdate 0 (fun c => wrapInt (c + 1)) p.Bucket s0.counters := he
      rcases mem_mapUpdate _ _ _ _ _ he2 with h | h | h
      · rw [h]; simp only; rw [hw]; omega
      · rw [h]
      · exact hnn e h
    have := ih (monitorPacket s0 p) (fun q hq => hQ q (List.mem_cons_of_mem _ hq)) hnn2
      (by rw [htot]; unfold countersTotal; omega)
    show countersTotal (monitorPackets (monitorPacket s0 p) rest) = _
    rw [this, htot]
    omega

/-- C13: every packet taken off the queue is counted once, in whatever
order the packets arrive. Processing a list of packets and processing a
permutation of it, from the same state, give the same value of every
counter and, for every timer bucket, the same samples up to their order,
which the flush reduces to the same numbers; and `N` counter packets of
value 1 at sampling rate 1.0 raise the sum of the counters by `N` (from
counters that are not negative, the sum staying within an `int`). -/
theorem monitorPackets_order_independent (st : State) (P P' : List Packet)
    (hperm : P.Perm P') :
    (∀ k, mapGet k (monitorPackets st P).counters = mapGet k (monitorPackets st P').counters) ∧
    (∀ k, ((mapGet k (monitorPackets st P).timers).getD []).Perm
      ((mapGet k (monitorPackets st P').timers).getD [])) ∧
    (∀ (p : Int) (t t' : List Int), t.Perm t' → reduceTimer p t = reduceTimer p t') ∧
    (∀ (Q : List Packet) (s0 : State),
      (∀ p ∈ Q, p.Modifier ≠ "ms" ∧ p.Value = 1 ∧ p.Sampling = ⟨f32One⟩) →
      (∀ e ∈ s0.counters, 0 ≤ e.2) → countersTotal s0 + Q.length ≤ maxInt →
      countersTotal (monitorPackets s0 Q) = countersTotal s0 + Q.length) := by
  have h := monitorPackets_perm P P' hperm st st (fun _ => rfl) (fun _ => List.Perm.refl _)
  exact ⟨h.1, h.2, reduceTimer_perm, countersTotal_count⟩

/-- Witness of `monitorPackets_order_independent`. -/
theorem monitorPackets_order_independent_witness :
    (∀ k, mapGet k (monitorPackets State.init
        [⟨"a", 1, "c", ⟨f32One⟩⟩, ⟨"t", 5, "ms", ⟨f32One⟩⟩, ⟨"t", 3, "ms", ⟨f32One⟩⟩]).counters =
      mapGet k (monitorPackets State.init
        [⟨"t", 5, "ms", ⟨f32One⟩⟩, ⟨"a", 1, "c", ⟨f32One⟩⟩, ⟨"t", 3, "ms", ⟨f32One⟩⟩]).counters) ∧
    (∀ k, ((mapGet k (monitorPackets State.init
        [⟨"a", 1, "c", ⟨f32One⟩⟩, ⟨"t", 5, "ms", ⟨f32One⟩⟩, ⟨"t", 3, "ms", ⟨f32One⟩⟩]).timers).getD
          []).Perm
      ((mapGet k (monitorPackets State.init
        [⟨"t", 5, "ms", ⟨f32One⟩⟩, ⟨"a", 1, "c", ⟨f32One⟩⟩, ⟨"t", 3, "ms", ⟨f32One⟩⟩]).timers).getD
          [])) :=
  ⟨(monitorPackets_order_independent State.init _ _ (List.Perm.swap _ _ _)).1,
   (monitorPackets_order_independent State.init _ _ (List.Perm.swap _ _ _)).2.1⟩

/-! ## The same packets after a flush -/

theorem mapGet_eq_none_iff {α : Type} (k : String) (m : List (String × α)) :
    mapGet k m = none ↔ k ∉ m.map Prod.fst := by
  induction m with
  | nil => simp [mapGet]
  | cons e rest ih =>
    obtain ⟨a, b⟩ := e
    by_cases h : a = k
    · simp [mapGet, h]
    · simp only [mapGet, h, if_false, ih, List.map_cons, List.mem_cons]
      constructor
      · intro h1 h2
        rcases h2 with h2 | h2
        · exact h h2.symm
        · exact h1 h2
      · intro h1 h2
        exact h1 (Or.inr h2)

theorem keys_mapSet {α : Type} (k : String) (v : α) (m : List (String × α)) :
    (mapSet k v m).map Prod.fst =
      if k ∈ m.map Prod.fst then m.map Prod.fst else m.map Prod.fst ++ [k] := by
  induction m with
  | nil => simp [mapSet]
  | cons e rest ih =>
    obtain ⟨a, b⟩ := e
    by_cases h : a = k
    · simp [mapSet, h]
    · have h2 : ¬ (k = a) := fun e => h e.symm
      simp only [mapSet, h, if_false, List.map_cons, ih, List.mem_cons, h2, false_or]
      split_ifs <;> simp

theorem keys_mapUpdate {α : Type} (d : α) (f : α → α) (k : String) (m : List (String × α)) :
    (mapUpdate d f k m).map Prod.fst =
      if k ∈ m.map Prod.fst then m.map Prod.fst else m.map Prod.fst ++ [k] := by
  unfold mapUpdate
  by_cases hk : k ∈ m.map Prod.fst
  · have hs : ∃ c, mapGet k m = some c := by
      cases h : mapGet k m with
      | none => exact absurd hk ((mapGet_eq_none_iff k m).1 h)
      | some c => exact ⟨c, rfl⟩
    obtain ⟨c, hc⟩ := hs
    simp only [hc, keys_mapSet, hk, if_true]
  · have hn := (mapGet_eq_none_iff k m).2 hk
    simp only [hn, keys_mapSet, hk, if_false, List.mem_append, List.mem_singleton, or_true,
      if_true]

theorem nodup_keys_mapUpdate {α : Type} (d : α) (f : α → α) (k : String)
    (m : List (String × α)) (h : (m.map Prod.fst).Nodup) :
    ((mapUpdate d f k m).map Prod.fst).Nodup := by
  rw [keys_mapUpdate]
  split_ifs with hk
  · exact h
  · exact List.Nodup.append h (List.nodup_singleton k) (by
      intro x hx hx2
      rw [List.mem_singleton] at hx2
      rw [hx2] at hx
      exact hk hx)

theorem mem_keys_mapUpdate {α : Type} (d : α) (f : α → α) (k : String)
    (m : List (String × α)) :
    k ∈ (mapUpdate d f k m).map Prod.fst ∧
      ∀ x ∈ m.map Prod.fst, x ∈ (mapUpdate d f k m).map Prod.fst := by
  rw [keys_mapUpdate]
  split_ifs with hk
  · exact ⟨hk, fun x hx => hx⟩
  · exact ⟨by simp, fun x hx => List.mem_append_left _ hx⟩

theorem mapGet_padMap {α : Type} (d : α) (a full : List (String × α)) (k : String)
    (hk : k ∈ full.map Prod.fst) :
    mapGet k (padMap d a full) = some ((mapGet k a).getD d) := by
  unfold padMap
  induction full with
  | nil => simp at hk
  | cons e rest ih =>
    obtain ⟨x, y⟩ := e
    by_cases h : x = k
    · simp [mapGet, h]
    · have hk2 : k ∈ rest.map Prod.fst := by
        simp only [List.map_cons, List.mem_cons] at hk
        rcases hk with hk | hk
        · exact absurd hk.symm h
        · exact hk
      simp only [List.map_cons, mapGet, h, if_false]
      exact ih hk2

theorem mapSet_map_of_not_mem {α : Type} (k : String) (g : String → α)
    (rest : List (String × α)) (hk : k ∉ rest.map Prod.fst) (x : α) :
    rest.map (fun e => (e.1, if e.1 = k then x else g e.1)) =
      rest.map (fun e => (e.1, g e.1)) := by
  apply List.map_congr_left
  intro e he
  have : e.1 ≠ k := fun h => hk (by rw [← h]; exact List.mem_map_of_mem _ he)
  simp [this]

theorem mapSet_padMap {α : Type} (k : String) (x : α) (g : String → α)
    (full : List (String × α)) (hn : (full.map Prod.fst).Nodup) (hk : k ∈ full.map Prod.fst) :
    mapSet k x (full.map (fun e => (e.1, g e.1))) =
      full.map (fun e => (e.1, if e.1 = k then x else g e.1)) := by
  induction full with
  | nil => simp at hk
  | cons e rest ih =>
    obtain ⟨a, b⟩ := e
    simp only [List.map_cons, List.nodup_cons] at hn
    by_cases h : a = k
    · subst h
      simp only [List.map_cons, mapSet, if_true]
      rw [mapSet_map_of_not_mem a g rest hn.1 x]
    · have hk2 : k ∈ rest.map Prod.fst := by
        simp only [List.map_cons, List.mem_cons] at hk
        rcases hk with hk | hk
        · exact absurd hk.symm h
        · exact hk
      simp only [List.map_cons, mapSet, h, if_false]
      rw [ih hn.2 hk2]

theorem mapUpdate_padMap {α : Type} (d : α) (f : α → α) (k : String)
    (a full : List (String × α)) (hn : (full.map Prod.fst).Nodup)
    (hk : k ∈ full.map Prod.fst) :
    mapUpdate d f k (padMap d a full) = padMap d (mapUpdate d f k a) full := by
  have hg := mapGet_padMap d a full k hk
  have e1 : mapUpdate d f k (padMap d a full) =
      mapSet k (f ((mapGet k a).getD d)) (padMap d a full) := by
    unfold mapUpdate
    simp only [hg, Option.getD_some]
  rw [e1]
  unfold padMap
  rw [mapSet_padMap k _ (fun s => (mapGet s a).getD d) full hn hk]
  apply List.map_congr_left
  intro e _
  rw [mapGet_mapUpdate]
  by_cases h : e.1 = k
  · simp [h]
  · simp [h]

theorem padMap_nil {α : Type} (d : α) (full : List (String × α)) :
    padMap d [] full = full.map (fun e => (e.1, d)) := by
  unfold padMap
  simp [mapGet]

theorem padMap_self {α : Type} (d : α) (a : List (String × α))
    (hn : (a.map Prod.fst).Nodup) : padMap d a a = a := by
  unfold padMap
  induction a with
  | nil => rfl
  | cons e rest ih =>
    obtain ⟨k, v⟩ := e
    simp only [List.map_cons, List.nodup_cons] at hn
    simp only [List.map_cons, mapGet, if_true, Option.getD_some]
    congr 1
    have : rest.map (fun e => (e.1, (if k = e.1 then some v else mapGet e.1 rest).getD d)) =
        rest.map (fun e => (e.1, (mapGet e.1 rest).getD d)) := by
      apply List.map_congr_left
      intro e he
      have hne : ¬ (k = e.1) := fun h => hn.1 (by rw [h]; exact List.mem_map_of_mem _ he)
      simp [hne]
    rw [this]
    exact ih hn.2

theorem monitorPacket_pad (p : Packet) (a full : State)
    (hc : (full.counters.map Prod.fst).Nodup) (ht : (full.timers.map Prod.fst).Nodup)
    (hp : (p.Modifier = "ms" → p.Bucket ∈ full.timers.map Prod.fst) ∧
      (p.Modifier ≠ "ms" → p.Bucket ∈ full.counters.map Prod.fst)) :
    monitorPacket ⟨padMap 0 a.counters full.counters, padMap [] a.timers full.timers⟩ p =
      ⟨padMap 0 (monitorPacket a p).counters full.counters,
        padMap [] (monitorPacket a p).timers full.timers⟩ := by
  rw [monitorPacket_eq, monitorPacket_eq a p]
  by_cases hm : p.Modifier = "ms"
  · simp only [if_pos hm]
    rw [mapUpdate_padMap _ _ _ _ _ ht (hp.1 hm)]
  · simp only [if_neg hm]
    rw [mapUpdate_padMap _ _ _ _ _ hc (hp.2 hm)]

theorem monitorPackets_pad (P : List Packet) (full : State)
    (hc : (full.counters.map Prod.fst).Nodup) (ht : (full.timers.map Prod.fst).Nodup)
    (hP : ∀ p ∈ P, (p.Modifier = "ms" → p.Bucket ∈ full.timers.map Prod.fst) ∧
      (p.Modifier ≠ "ms" → p.Bucket ∈ full.counters.map Prod.fst)) :
    ∀ a : State,
      monitorPackets ⟨padMap 0 a.counters full.counters, padMap [] a.timers full.timers⟩ P =
        ⟨padMap 0 (monitorPackets a P).counters full.counters,
          padMap [] (monitorPackets a P).timers full.timers⟩ := by
  induction P with
  | nil => intro a; rfl
  | cons p rest ih =>
    intro a
    show monitorPackets (monitorPacket _ p) rest = _
    rw [monitorPacket_pad p a full hc ht (hP p (List.mem_cons_self _ _))]
    exact ih (fun q hq => hP q (List.mem_cons_of_mem _ hq)) (monitorPacket a p)

theorem monitorPacket_keys (a : State) (p : Packet)
    (hc : (a.counters.map Prod.fst).Nodup) (ht : (a.timers.map Prod.fst).Nodup) :
    ((monitorPacket a p).counters.map Prod.fst).Nodup ∧
    ((monitorPacket a p).timers.map Prod.fst).Nodup ∧
    (∀ x ∈ a.counters.map Prod.fst, x ∈ (monitorPacket a p).counters.map Prod.fst) ∧
    (∀ x ∈ a.timers.map Prod.fst, x ∈ (monitorPacket a p).timers.map Prod.fst) ∧
    (p.Modifier = "ms" → p.Bucket ∈ (monitorPacket a p).timers.map Prod.fst) ∧
    (p.Modifier ≠ "ms" → p.Bucket ∈ (monitorPacket a p).counters.map Prod.fst) := by
  rw [monitorPacket_eq]
  by_cases hm : p.Modifier = "ms"
  · simp only [if_pos hm]
    exact ⟨hc, nodup_keys_mapUpdate _ _ _ _ ht, fun x hx => hx,
      (mem_keys_mapUpdate _ _ _ _).2, fun _ => (mem_keys_mapUpdate _ _ _ _).1,
      fun h => absurd hm h⟩
  · simp only [if_neg hm]
    exact ⟨nodup_keys_mapUpdate _ _ _ _ hc, ht, (mem_keys_mapUpdate _ _ _ _).2,
      fun x hx => hx, fun h => absurd h hm, fun _ => (mem_keys_mapUpdate _ _ _ _).1⟩

theorem monitorPackets_keys (P : List Packet) :
    ∀ a : State, (a.counters.map Prod.fst).Nodup → (a.timers.map Prod.fst).Nodup →
      ((monitorPackets a P).counters.map Prod.fst).Nodup ∧
      ((monitorPackets a P).timers.map Prod.fst).Nodup ∧
      (∀ x ∈ a.counters.map Prod.fst, x ∈ (monitorPackets a P).counters.map Prod.fst) ∧
      (∀ x ∈ a.timers.map Prod.fst, x ∈ (monitorPackets a P).timers.map Prod.fst) ∧
      (∀ p ∈ P, (p.Modifier = "ms" → p.Bucket ∈ (monitorPackets a P).timers.map Prod.fst) ∧
        (p.Modifier ≠ "ms" → p.Bucket ∈ (monitorPackets a P).counters.map Prod.fst)) := by
  induction P with
  | nil =>
    intro a hc ht
    exact ⟨hc, ht, fun x hx => hx, fun x hx => hx, fun p hp => absurd hp (List.not_mem_nil p)⟩
  | cons p rest ih =>
    intro a hc ht
    obtain ⟨k1, k2, k3, k4, k5, k6⟩ := monitorPacket_keys a p hc ht
    obtain ⟨r1, r2, r3, r4, r5⟩ := ih (monitorPacket a p) k1 k2
    refine ⟨r1, r2, fun x hx => r3 x (k3 x hx), fun x hx => r4 x (k4 x hx), ?_⟩
    intro q hq
    rcases List.mem_cons.1 hq with e | e
    · rw [e]
      exact ⟨fun h => r4 _ (k5 h), fun h => r3 _ (k6 h)⟩
    · exact r5 q e

theorem monitorPackets_timer_lengths (P : List Packet) :
    ∀ (a : State) (n : Nat), (∀ e ∈ a.timers, e.2.length ≤ n) →
      ∀ e ∈ (monitorPackets a P).timers, e.2.length ≤ n + P.length := by
  induction P with
  | nil => intro a n h e he; exact Nat.le_trans (h e he) (Nat.le_add_right _ _)
  | cons p rest ih =>
    intro a n h e he
    have hstep : ∀ x ∈ (monitorPacket a p).timers, x.2.length ≤ n + 1 := by
      intro x hx
      rw [monitorPacket_eq] at hx
      by_cases hm : p.Modifier = "ms"
      · simp only [if_pos hm] at hx
        have hx2 : x ∈ mapUpdate [] (fun c => c ++ [p.Value]) p.Bucket a.timers := hx
        rcases mem_mapUpdate _ _ _ _ _ hx2 with h1 | h1 | h1
        · rw [h1]
          simp only [List.length_append, List.length_singleton]
          cases hg : mapGet p.Bucket a.timers with
          | none => simp
          | some c =>
            have hcl : c.length ≤ n := h _ (mapGet_mem _ _ _ hg)
            simp only [Option.getD_some]
            omega
        · rw [h1]; simp
        · exact Nat.le_trans (h x h1) (Nat.le_add_right _ _)
      · simp only [if_neg hm] at hx
        exact Nat.le_trans (h x hx) (Nat.le_add_right _ _)
    have := ih (monitorPacket a p) (n + 1) hstep e he
    simp only [List.length_cons]
    omega

theorem monitorPackets_after_reset (P : List Packet) :
    monitorPackets (resetState (monitorPackets State.init P)) P =
      monitorPackets State.init P := by
  obtain ⟨hc, ht, -, -, hP⟩ :=
    monitorPackets_keys P State.init (by simp [State.init]) (by simp [State.init])
  have hpad := monitorPackets_pad P (monitorPackets State.init P) hc ht hP State.init
  have hinit : resetState (monitorPackets State.init P) =
      ⟨padMap 0 State.init.counters (monitorPackets State.init P).counters,
        padMap [] State.init.timers (monitorPackets State.init P).timers⟩ := by
    unfold resetState
    simp only [State.init, padMap_nil]
  rw [hinit, hpad, padMap_self _ _ hc, padMap_self _ _ ht]

theorem mapGet_of_mem_nodup {α : Type} (k : String) (v : α) (m : List (String × α))
    (hn : (m.map Prod.fst).Nodup) (h : (k, v) ∈ m) : mapGet k m = some v := by
  induction m with
  | nil => cases h
  | cons e rest ih =>
    obtain ⟨a, b⟩ := e
    simp only [List.map_cons, List.nodup_cons] at hn
    rcases List.mem_cons.1 h with e | e
    · simp only [Prod.mk.injEq] at e
      simp [mapGet, e.1, e.2]
    · have hne : ¬ (a = k) := by
        intro hak
        exact hn.1 (by rw [hak]; exact List.mem_map_of_mem Prod.fst e)
      simp only [mapGet, hne, if_false]
      exact ih hn.2 e

theorem padMap_perm {α : Type} (d : α) (a full : List (String × α))
    (hn : (a.map Prod.fst).Nodup) (hp : full.Perm a) : padMap d a full = full := by
  unfold padMap
  have : full.map (fun e => (e.1, (mapGet e.1 a).getD d)) = full.map id := by
    apply List.map_congr_left
    intro e he
    have hmem : (e.1, e.2) ∈ a := hp.mem_iff.1 he
    rw [mapGet_of_mem_nodup e.1 e.2 a hn hmem]
    rfl
  rw [this, List.map_id]

theorem submit_lines (cfg : Config) (env : Env) (st : State) (hopen : env.openOk = true)
    (h1 : 1 ≤ cfg.flushInterval) (h2 : cfg.flushInterval ≤ 9223372036)
    (h3 : 0 < cfg.percentThreshold) (h4 : cfg.percentThreshold < 200)
    (hv : ∀ e ∈ st.timers, (e.2.length : Int) ≤ maxInt) :
    submit cfg env st = Except.ok
      ⟨resetState st,
        if (st.counters.filter (fun e => e.2 ≠ 0)).length +
            (st.timers.filter (fun e => e.2 ≠ [])).length = 0 then
          st.counters.flatMap (counterLines cfg) ++ st.timers.flatMap (timerEntryLines cfg)
        else
          st.counters.flatMap (counterLines cfg) ++ st.timers.flatMap (timerEntryLines cfg) ++
            [⟨"statsd.numStats", (((st.counters.filter (fun e => e.2 ≠ 0)).length +
              (st.timers.filter (fun e => e.2 ≠ [])).length : Nat) : Int)⟩],
        none,
        if (st.counters.filter (fun e => e.2 ≠ 0)).length +
            (st.timers.filter (fun e => e.2 ≠ [])).length = 0 then none
        else some (st.counters.flatMap (counterLines cfg) ++
          st.timers.flatMap (timerEntryLines cfg))⟩ := by
  have hc := flushCounters_lines cfg (rateDivisor_ne_zero cfg h1 h2) st.counters
  have ht := flushTimers_lines cfg h3 h4 st.timers hv
  unfold submit resetState
  simp only [hopen, hc, ht, Except.bind, if_true, Option.isSome, Bool.or_true, Bool.false_or]
  split_ifs <;> first | rfl | contradiction

theorem monitorPackets_after_reset_perm (P : List Packet) (s1 : State)
    (hc : s1.counters.Perm (monitorPackets State.init P).counters)
    (ht : s1.timers.Perm (monitorPackets State.init P).timers) :
    monitorPackets (resetState s1) P = s1 := by
  obtain ⟨kc, kt, -, -, hP⟩ :=
    monitorPackets_keys P State.init (by simp [State.init]) (by simp [State.init])
  have hkc : (s1.counters.map Prod.fst).Nodup := ((hc.map Prod.fst).nodup_iff).2 kc
  have hkt : (s1.timers.map Prod.fst).Nodup := ((ht.map Prod.fst).nodup_iff).2 kt
  have hP2 : ∀ p ∈ P, (p.Modifier = "ms" → p.Bucket ∈ s1.timers.map Prod.fst) ∧
      (p.Modifier ≠ "ms" → p.Bucket ∈ s1.counters.map Prod.fst) := by
    intro p hp
    exact ⟨fun h => (ht.map Prod.fst).mem_iff.2 ((hP p hp).1 h),
      fun h => (hc.map Prod.fst).mem_iff.2 ((hP p hp).2 h)⟩
  have hpad := monitorPackets_pad P s1 hkc hkt hP2 State.init
  have hinit : resetState s1 =
      ⟨padMap 0 State.init.counters s1.counters, padMap [] State.init.timers s1.timers⟩ := by
    unfold resetState
    simp only [State.init, padMap_nil]
  rw [hinit, hpad, padMap_perm _ _ _ kc hc, padMap_perm _ _ _ kt ht]

set_option maxRecDepth 8000 in
/-- C12, as stated, fails: when the first flush cannot open the output file
it writes nothing and resets nothing (guard of line 88), and the second
flush, which opens the file, writes the values of both rounds. With the one
packet `a:10000000|c` the first flush writes no line and the second writes
rate 2 and count 20000000; a first flush that opens the file writes rate 1
and count 10000000. -/
theorem submit_cycling_after_failed_open :
    submit Config.default ⟨false, false, "T"⟩
        (monitorPackets State.init [⟨"a", 10000000, "c", ⟨f32One⟩⟩]) =
      Except.ok ⟨⟨[("a", 10000000)], []⟩, [], none, none⟩ ∧
    (submit Config.default ⟨false, true, "T"⟩
        (monitorPackets ⟨[("a", 10000000)], []⟩ [⟨"a", 10000000, "c", ⟨f32One⟩⟩])).map
        (fun r => r.fileData) =
      Except.ok (some [⟨"stats.a", 2⟩, ⟨"stats_counts.a", 20000000⟩]) ∧
    (submit Config.default ⟨false, true, "T"⟩
        (monitorPackets State.init [⟨"a", 10000000, "c", ⟨f32One⟩⟩])).map
        (fun r => r.fileData) =
      Except.ok (some [⟨"stats.a", 1⟩, ⟨"stats_counts.a", 10000000⟩]) := by
  decide

/-- C12, amended: from the empty state, when both flushes open the output
file and run to their end (flush interval of 1 to 9223372036 seconds,
threshold of 1 to 199), processing a list of packets and flushing, then
processing the same list and flushing again, makes the second flush write
the lines of the first, each as many times, in whatever order each flush
ranges over the two maps: `s1` and `s2` are the maps in the order of the
first and of the second flush, and the buffer of the second flush holds the
lines of the buffer of the first. -/
theorem submit_idempotent_cycling (cfg : Config) (env1 env2 : Env) (P : List Packet)
    (ho1 : env1.openOk = true) (ho2 : env2.openOk = true) (h1 : 1 ≤ cfg.flushInterval)
    (h2 : cfg.flushInterval ≤ 9223372036) (h3 : 0 < cfg.percentThreshold)
    (h4 : cfg.percentThreshold < 200) (hlen : (P.length : Int) ≤ maxInt)
    (s1 : State) (hs1c : s1.counters.Perm (monitorPackets State.init P).counters)
    (hs1t : s1.timers.Perm (monitorPackets State.init P).timers) :
    ∃ r1, submit cfg env1 s1 = Except.ok r1 ∧
      (∀ k, mapGet k (monitorPackets r1.state P).counters = mapGet k s1.counters) ∧
      (∀ k, mapGet k (monitorPackets r1.state P).timers = mapGet k s1.timers) ∧
      ∀ s2 : State, s2.counters.Perm (monitorPackets r1.state P).counters →
        s2.timers.Perm (monitorPackets r1.state P).timers →
        ∃ r2, submit cfg env2 s2 = Except.ok r2 ∧
          (r2.fileData.getD []).Perm (r1.fileData.getD []) ∧
          r2.fileData.isSome = r1.fileData.isSome ∧ r2.buffer.Perm r1.buffer := by
  have hv0 : ∀ e ∈ (monitorPackets State.init P).timers, (e.2.length : Int) ≤ maxInt := by
    intro e he
    have := monitorPackets_timer_lengths P State.init 0
      (fun e he => absurd he (List.not_mem_nil e)) e he
    omega
  have hv1 : ∀ e ∈ s1.timers, (e.2.length : Int) ≤ maxInt :=
    fun e he => hv0 e (hs1t.mem_iff.1 he)
  have hr1 := submit_lines cfg env1 s1 ho1 h1 h2 h3 h4 hv1
  have hback := monitorPackets_after_reset_perm P s1 hs1c hs1t
  refine ⟨_, hr1, ?_, ?_, ?_⟩
  · intro k; show mapGet k (monitorPackets (resetState s1) P).counters = _; rw [hback]
  · intro k; show mapGet k (monitorPackets (resetState s1) P).timers = _; rw [hback]
  intro s2 hs2c hs2t
  have hs2c2 : s2.counters.Perm s1.counters := by
    have : s2.counters.Perm (monitorPackets (resetState s1) P).counters := hs2c
    rw [hback] at this; exact this
  have hs2t2 : s2.timers.Perm s1.timers := by
    have : s2.timers.Perm (monitorPackets (resetState s1) P).timers := hs2t
    rw [hback] at this; exact this
  have hv2 : ∀ e ∈ s2.timers, (e.2.length : Int) ≤ maxInt :=
    fun e he => hv1 e (hs2t2.mem_iff.1 he)
  have hr2 := submit_lines cfg env2 s2 ho2 h1 h2 h3 h4 hv2
  have hn : (s2.counters.filter (fun e => e.2 ≠ 0)).length +
      (s2.timers.filter (fun e => e.2 ≠ [])).length =
      (s1.counters.filter (fun e => e.2 ≠ 0)).length +
      (s1.timers.filter (fun e => e.2 ≠ [])).length := by
    rw [(hs2c2.filter _).length_eq, (hs2t2.filter _).length_eq]
  have hl : (s2.counters.flatMap (counterLines cfg) ++
      s2.timers.flatMap (timerEntryLines cfg)).Perm
      (s1.counters.flatMap (counterLines cfg) ++ s1.timers.flatMap (timerEntryLines cfg)) :=
    (hs2c2.flatMap_right _).append (hs2t2.flatMap_right _)
  refine ⟨_, hr2, ?_, ?_, ?_⟩
  · simp only [hn]
    split_ifs
    · exact List.Perm.refl _
    · exact hl
  · simp only [hn]
    split_ifs <;> rfl
  · simp only [hn]
    split_ifs
    · exact hl
    · exact hl.append_right _

set_option maxRecDepth 8000 in
/-- Witness of `submit_idempotent_cycling`. -/
theorem submit_idempotent_cycling_witness :
    ∃ r1, submit Config.default ⟨false, true, "T"⟩
        ⟨[("b", 20000000), ("a", 10000000)], [("t", [5])]⟩ = Except.ok r1 ∧
      (∀ k, mapGet k (monitorPackets r1.state
          [⟨"a", 10000000, "c", ⟨f32One⟩⟩, ⟨"t", 5, "ms", ⟨f32One⟩⟩,
            ⟨"b", 20000000, "c", ⟨f32One⟩⟩]).counters =
        mapGet k [("b", (20000000 : Int)), ("a", 10000000)]) ∧
      (∀ k, mapGet k (monitorPackets r1.state
          [⟨"a", 10000000, "c", ⟨f32One⟩⟩, ⟨"t", 5, "ms", ⟨f32One⟩⟩,
            ⟨"b", 20000000, "c", ⟨f32One⟩⟩]).timers =
        mapGet k [("t", ([5] : List Int))]) ∧
      ∀ s2 : State, s2.counters.Perm (monitorPackets r1.state
          [⟨"a", 10000000, "c", ⟨f32One⟩⟩, ⟨"t", 5, "ms", ⟨f32One⟩⟩,
            ⟨"b", 20000000, "c", ⟨f32One⟩⟩]).counters →
        s2.timers.Perm (monitorPackets r1.state
          [⟨"a", 10000000, "c", ⟨f32One⟩⟩, ⟨"t", 5, "ms", ⟨f32One⟩⟩,
            ⟨"b", 20000000, "c", ⟨f32One⟩⟩]).timers →
        ∃ r2, submit Config.default ⟨true, true, "U"⟩ s2 = Except.ok r2 ∧
          (r2.fileData.getD []).Perm (r1.fileData.getD []) ∧
          r2.fileData.isSome = r1.fileData.isSome ∧ r2.buffer.Perm r1.buffer :=
  submit_idempotent_cycling Config.default ⟨false, true, "T"⟩ ⟨true, true, "U"⟩
    [⟨"a", 10000000, "c", ⟨f32One⟩⟩, ⟨"t", 5, "ms", ⟨f32One⟩⟩, ⟨"b", 20000000, "c", ⟨f32One⟩⟩]
    rfl rfl (by decide) (by decide) (by decide) (by decide) (by decide)
    ⟨[("b", 20000000), ("a", 10000000)], [("t", [5])]⟩
    (by
      have h : monitorPackets State.init
          [⟨"a", 10000000, "c", ⟨f32One⟩⟩, ⟨"t", 5, "ms", ⟨f32One⟩⟩,
            ⟨"b", 20000000, "c", ⟨f32One⟩⟩] =
          ⟨[("a", 10000000), ("b", 20000000)], [("t", [5])]⟩ := by decide
      rw [h]
      exact List.Perm.swap _ _ _)
    (by
      have h : monitorPackets State.init
          [⟨"a", 10000000, "c", ⟨f32One⟩⟩, ⟨"t", 5, "ms", ⟨f32One⟩⟩,
            ⟨"b", 20000000, "c", ⟨f32One⟩⟩] =
          ⟨[("a", 10000000), ("b", 20000000)], [("t", [5])]⟩ := by decide
      rw [h])

/-! ## Several samples in one datagram -/

theorem findAllFrom_skip_append (pre R : List Char) :
    findAllFrom pre.length (pre ++ R) = findAllFrom 0 R := by
  induction pre with
  | nil => rfl
  | cons c cs ih => simp only [List.length_cons, List.cons_append, findAllFrom]; exact ih

theorem matchRate_of_head (R : List Char) (h : (R.headD '_') ≠ '|') : matchRate R = ([], 0) := by
  unfold matchRate
  split
  · rename_i rest
    exact absurd rfl h
  · rfl

theorem sanitize_append (a b : List Char) : sanitize (a ++ b) = sanitize a ++ sanitize b := by
  unfold sanitize; exact List.filter_append _ _

theorem sanitize_separator (sep : List Char) (h : ∀ c ∈ sep, isAllowedChar c = false) :
    sanitize sep = [] := by
  unfold sanitize
  rw [List.filter_eq_nil_iff]
  intro c hc
  rw [h c hc]
  decide

theorem sanitize_sampleText (s : Submatch) (h : SampleWellFormed s) :
    sanitize (sampleText s) = sampleText s := by
  obtain ⟨-, hb, -, hv, hm, hr⟩ := h
  apply sanitize_of_allowed
  intro c hc
  have hmall : ∀ c ∈ s.modifier, isAllowedChar c = true := by
    rcases hm with h | h <;> rw [h] <;> decide
  unfold sampleText at hc
  simp only [List.mem_append, List.mem_cons] at hc
  rcases hc with h | h | h | h | h | h
  · exact isAllowed_of_isBucket (hb c h)
  · rw [h]; decide
  · exact isAllowed_of_isDigit (hv c h)
  · rw [h]; decide
  · exact hmall c h
  · split_ifs at h with hrate
    · cases h
    · simp only [List.mem_cons] at h
      rcases h with h | h | h
      · rw [h]; decide
      · rw [h]; decide
      · exact isAllowed_of_isRate (hr c h)

theorem sanitize_datagramText (ds : List (Submatch × List Char))
    (h : ∀ d ∈ ds, SampleWellFormed d.1 ∧ ∀ c ∈ d.2, isAllowedChar c = false) :
    sanitize (datagramText ds) = (ds.map Prod.fst).flatMap sampleText := by
  induction ds with
  | nil => rfl
  | cons d rest ih =>
    obtain ⟨s, sep⟩ := d
    obtain ⟨hw, hsep⟩ := h (s, sep) (List.mem_cons_self _ _)
    simp only [datagramText, sanitize_append, sanitize_sampleText s hw,
      sanitize_separator sep hsep, List.append_nil, List.map_cons, List.flatMap_cons]
    rw [ih (fun d hd => h d (List.mem_cons_of_mem _ hd))]

theorem isRateChar_of_bucket_not_digit (c : Char) (hb : isBucketChar c = true)
    (hd : c.isDigit = false) : isRateChar c = false := by
  unfold isRateChar
  have hdot : (c == '.') = false := by
    cases h : (c == '.') with
    | false => rfl
    | true =>
      have hc : c = '.' := by simpa using h
      rw [hc] at hb
      exact absurd hb (by decide)
  simp [hd, hdot]

theorem matchHere_sampleText (s : Submatch) (R : List Char) (hw : SampleWellFormed s)
    (hR : R = [] ∨ ∃ c R', R = c :: R' ∧ isBucketChar c = true ∧
      (s.rate ≠ [] → c.isDigit = false)) :
    matchHere (sampleText s ++ R) = some (s, (sampleText s).length) := by
  obtain ⟨hb, hb2, hv, hv2, hm, hr⟩ := hw
  obtain ⟨b, v, m, r⟩ := s
  simp only at hb hb2 hv hv2 hm hr hR
  by_cases hrate : r = []
  · subst hrate
    have htext : sampleText ⟨b, v, m, []⟩ ++ R = b ++ ':' :: (v ++ '|' :: (m ++ R)) := by
      simp [sampleText, List.append_assoc]
    have hmr : matchRate R = ([], 0) := by
      apply matchRate_of_head
      rcases hR with h | ⟨c, R', h, hc, -⟩
      · rw [h]; decide
      · rw [h]
        simp only [List.headD_cons]
        intro e
        rw [e] at hc
        exact absurd hc (by decide)
    rw [htext, matchHere_sample b v m R hb hb2 hv hv2 hm, hmr]
    simp [sampleText]
    omega
  · have htext : sampleText ⟨b, v, m, r⟩ ++ R =
        b ++ ':' :: (v ++ '|' :: (m ++ ('|' :: '@' :: (r ++ R)))) := by
      simp [sampleText, hrate, List.append_assoc]
    have htw : (r ++ R).takeWhile isRateChar = r := by
      rcases hR with h | ⟨c, R', h, hc, hd⟩
      · rw [h, List.append_nil]; exact (takeWhile_all r hr).1
      · rw [h]
        exact (takeWhile_append_stop r c R' hr
          (isRateChar_of_bucket_not_digit c hc (hd hrate))).1
    have hmr : matchRate ('|' :: '@' :: (r ++ R)) = (r, 2 + r.length) := by
      unfold matchRate
      simp only [htw, hrate, if_false]
    rw [htext, matchHere_sample b v m _ hb hb2 hv hv2 hm, hmr]
    simp [sampleText, hrate]
    omega

theorem flatMap_sampleText_head (ss : List Submatch) (h : ∀ s ∈ ss, SampleWellFormed s) :
    ss.flatMap sampleText = [] ∨ ∃ c R' s rest, ss = s :: rest ∧
      ss.flatMap sampleText = c :: R' ∧ isBucketChar c = true ∧ c = s.bucket.headD '_' := by
  cases ss with
  | nil => exact Or.inl rfl
  | cons s rest =>
    right
    obtain ⟨hb, hb2, -⟩ := h s (List.mem_cons_self _ _)
    cases hbk : s.bucket with
    | nil => exact absurd hbk hb
    | cons c bs =>
      refine ⟨c, (bs ++ ':' :: (s.digits ++ '|' :: (s.modifier ++
        (if s.rate = [] then [] else '|' :: '@' :: s.rate)))) ++ rest.flatMap sampleText,
        s, rest, rfl, ?_, hb2 c (by rw [hbk]; exact List.mem_cons_self _ _), ?_⟩
      · simp only [List.flatMap_cons, sampleText, hbk, List.cons_append]
      · simp [hbk]

theorem findAll_samples (ss : List Submatch) (h : ∀ s ∈ ss, SampleWellFormed s)
    (hc : List.Chain' RateThenNoDigit ss) :
    findAllStringSubmatch (ss.flatMap sampleText) = ss := by
  unfold findAllStringSubmatch
  induction ss with
  | nil => rfl
  | cons s rest ih =>
    have hw := h s (List.mem_cons_self _ _)
    have hrest : ∀ x ∈ rest, SampleWellFormed x := fun x hx => h x (List.mem_cons_of_mem _ hx)
    have hR : rest.flatMap sampleText = [] ∨ ∃ c R', rest.flatMap sampleText = c :: R' ∧
        isBucketChar c = true ∧ (s.rate ≠ [] → c.isDigit = false) := by
      rcases flatMap_sampleText_head rest hrest with h0 | ⟨c, R', s', rest', hs', hR', hcb, hch⟩
      · exact Or.inl h0
      · right
        refine ⟨c, R', hR', hcb, fun hrate => ?_⟩
        rw [hs'] at hc
        have hrel : RateThenNoDigit s s' := (List.chain'_cons.1 hc).1
        rcases hrel with h1 | h1
        · exact absurd h1 hrate
        · rw [hch]; exact h1
    have hm := matchHere_sampleText s (rest.flatMap sampleText) hw hR
    have htail : List.Chain' RateThenNoDigit rest := List.Chain'.tail hc
    have hne : sampleText s ≠ [] := by
      obtain ⟨hb, -⟩ := hw
      unfold sampleText
      intro e
      exact hb (List.append_eq_nil.1 e).1
    obtain ⟨c, cs, hcs⟩ := List.exists_cons_of_ne_nil hne
    simp only [List.flatMap_cons]
    rw [hcs] at hm ⊢
    rw [List.cons_append] at hm ⊢
    simp only [findAllFrom, hm, List.length_cons, Nat.add_sub_cancel]
    rw [findAllFrom_skip_append, ih hrest htail]

set_option maxRecDepth 8000 in
/-- C16, as stated, fails: the sanitizer removes the newline between two
samples, and the rate group of the first sample then takes the leading digit
of the next bucket. The datagram of the well-formed samples `a:1|c|@0.5` and
`7up:2|c`, separated by a newline, gives a packet for bucket `a` whose rate
is not 0.5 and a packet for bucket `up`, not `7up`. -/
theorem handleMessage_rate_absorbs_next_bucket :
    datagramText [(⟨"a".toList, "1".toList, ['c'], "0.5".toList⟩, ['\n']),
      (⟨"7up".toList, "2".toList, ['c'], []⟩, [])] = "a:1|c|@0.5\n7up:2|c".toList ∧
    SampleWellFormed ⟨"a".toList, "1".toList, ['c'], "0.5".toList⟩ ∧
    SampleWellFormed ⟨"7up".toList, "2".toList, ['c'], []⟩ ∧
    (handleMessage "a:1|c|@0.5\n7up:2|c".toList).map (fun p => (p.Bucket, p.Value, p.Modifier)) =
      [("a", 1, "c"), ("up", 2, "c")] ∧
    (handleMessage "a:1|c|@0.5\n7up:2|c".toList).map (fun p => p.Sampling) ≠
      [F32.pow2Neg 1, ⟨f32One⟩] := by
  decide

/-- C16, amended: for every list of well-formed samples, each followed by
any run of characters that the sanitizer removes (newlines, blanks) or by
nothing, in which no sample with a sampling rate is followed by a bucket
that starts with a digit, `handleMessage` sends exactly one packet per
sample, in order, each built from that sample's own bucket, value, modifier
and rate. -/
theorem handleMessage_datagram (ds : List (Submatch × List Char))
    (hw : ∀ d ∈ ds, SampleWellFormed d.1 ∧ ∀ c ∈ d.2, isAllowedChar c = false)
    (hc : List.Chain' RateThenNoDigit (ds.map Prod.fst)) :
    findAllStringSubmatch (sanitize (datagramText ds)) = ds.map Prod.fst ∧
    handleMessage (datagramText ds) = (ds.map Prod.fst).map packetOf ∧
    (∀ s : Submatch, SampleWellFormed s →
      (packetOf s).Bucket = String.mk s.bucket ∧ (packetOf s).Modifier = String.mk s.modifier ∧
      ((digitsValue s.digits : Int) ≤ maxInt → (packetOf s).Value = digitsValue s.digits) ∧
      (packetOf s).Sampling = (parseFloat32 s.rate).getD ⟨f32One⟩) := by
  have hall : ∀ s ∈ ds.map Prod.fst, SampleWellFormed s := by
    intro s hs
    obtain ⟨d, hd, rfl⟩ := List.mem_map.1 hs
    exact (hw d hd).1
  have hfind : findAllStringSubmatch (sanitize (datagramText ds)) = ds.map Prod.fst := by
    rw [sanitize_datagramText ds hw]
    exact findAll_samples _ hall hc
  refine ⟨hfind, ?_, ?_⟩
  · unfold handleMessage
    rw [hfind]
  · intro s hs
    obtain ⟨-, -, hv, hv2, -, -⟩ := hs
    refine ⟨rfl, rfl, fun hr => ?_, ?_⟩
    · unfold packetOf
      simp only [atoi_digits s.digits hv hv2, if_pos hr]
    · unfold packetOf
      cases parseFloat32 s.rate <;> rfl

/-- Witness of `handleMessage_datagram`. -/
theorem handleMessage_datagram_witness :
    handleMessage (datagramText
        [(⟨"a".toList, "1".toList, ['c'], "0.5".toList⟩, ['\n']),
         (⟨"b_2".toList, "20".toList, ['m', 's'], []⟩, [' ', '\n']),
         (⟨"7up".toList, "3".toList, ['c'], []⟩, [])]) =
      [packetOf ⟨"a".toList, "1".toList, ['c'], "0.5".toList⟩,
       packetOf ⟨"b_2".toList, "20".toList, ['m', 's'], []⟩,
       packetOf ⟨"7up".toList, "3".toList, ['c'], []⟩] :=
  (handleMessage_datagram
    [(⟨"a".toList, "1".toList, ['c'], "0.5".toList⟩, ['\n']),
     (⟨"b_2".toList, "20".toList, ['m', 's'], []⟩, [' ', '\n']),
     (⟨"7up".toList, "3".toList, ['c'], []⟩, [])] (by decide)
    (by simp [RateThenNoDigit])).2.1

end Gographite
